import Mathlib

/-!
Verification development for the free-reader repository.

Shallow embedding of the URL validation module (src/lib/validation/url.ts),
the article API route (src/app/api/article/route.ts) and the ad sanitizer
(src/lib/sanitize-ads.ts).  JavaScript strings are modelled as `List Char`
(one entry per Unicode scalar value; the sources only ever inspect ASCII
content, where this coincides with JS UTF-16 code units).  Fallible
JavaScript code (functions that `throw`) is modelled with `Except`/`Option`.
External library calls (validator.js `isURL`/`isIP`, `decodeURIComponent`,
the WHATWG `URL` class) are modelled after their specified behaviour on the
ASCII inputs the repository feeds them.
-/

set_option maxRecDepth 4000

namespace FreeReader

/-! ## JavaScript string primitives -/

/-- JS whitespace (the set matched by the regex class backslash-s and removed
by `String.prototype.trim`): space, tab, LF, VT, FF, CR, NBSP, BOM.  The two
notions agree in JS; both are modelled by this single predicate. -/
def jsWS (c : Char) : Bool :=
  c = ' ' || c = '\t' || c = '\n' || c = Char.ofNat 11 || c = Char.ofNat 12 ||
  c = '\r' || c = Char.ofNat 0xA0 || c = Char.ofNat 0xFEFF

/-- Model of `String.prototype.trim`. -/
def jsTrim (cs : List Char) : List Char :=
  ((cs.dropWhile jsWS).reverse.dropWhile jsWS).reverse

/-- ASCII lower-casing of one character, as done by `toLowerCase` on the
ASCII range (the only range the embedded code compares case-insensitively). -/
def lowerChar (c : Char) : Char :=
  if 'A' ≤ c && c ≤ 'Z' then Char.ofNat (c.toNat + 32) else c

def lowerStr (cs : List Char) : List Char := cs.map lowerChar

/-- Case-insensitive character equality (JS regex flag `i` on ASCII). -/
def ciEq (c d : Char) : Bool := lowerChar c = lowerChar d

def ciListEq (a b : List Char) : Bool := lowerStr a = lowerStr b

/-- Value of a hexadecimal digit (48, 87 and 55 are the offsets of the
digit, lowercase and uppercase ranges). -/
def hexVal (c : Char) : Option Nat :=
  if c.isDigit then some (c.toNat - 48)
  else if 'a' ≤ c && c ≤ 'f' then some (c.toNat - 87)
  else if 'A' ≤ c && c ≤ 'F' then some (c.toNat - 55)
  else none

def isHexDigit (c : Char) : Bool := (hexVal c).isSome

/-- Everything of `cs` strictly before the first occurrence of `ch`
(JS `s.split(ch)[0]`). -/
def takeUntilChar (cs : List Char) (ch : Char) : List Char :=
  cs.takeWhile (fun c => c ≠ ch)

/-- Split at the first occurrence of the pattern `pat`, returning the parts
before and after it, or `none` when `pat` does not occur. -/
def splitFirstSub : List Char → List Char → Option (List Char × List Char)
  | [], _ => none
  | c :: rest, pat =>
    if pat.isPrefixOf (c :: rest) then some ([], (c :: rest).drop pat.length)
    else
      match splitFirstSub rest pat with
      | some (a, b) => some (c :: a, b)
      | none => none

/-- Split on every occurrence of the character `ch`, keeping empty pieces
(JS `String.prototype.split` with a single-character separator). -/
def splitChar (cs : List Char) (ch : Char) : List (List Char) :=
  match cs with
  | [] => [[]]
  | c :: rest =>
    let r := splitChar rest ch
    if c = ch then [] :: r
    else
      match r with
      | h :: t => (c :: h) :: t
      | [] => [[c]]

/-- Interpret a list of decimal digit characters as a number. -/
def digitsToNat (cs : List Char) : Nat :=
  cs.foldl (fun acc c => 10 * acc + (c.toNat - 48)) 0

/-! ## Percent decoding: `decodeURIComponent`

`decodeURIComponent` decodes every `%HH` escape; the decoded octets must
form valid (strict, shortest-form, non-surrogate) UTF-8 or a `URIError` is
thrown, which is modelled by returning `none`. -/

/-- Read one `%HH` escape from the head of the list. -/
def pctByte : List Char → Option (Nat × List Char)
  | '%' :: h1 :: h2 :: rest =>
    match hexVal h1, hexVal h2 with
    | some a, some b => some (16 * a + b, rest)
    | _, _ => none
  | _ => none

/-- Read a UTF-8 continuation octet (must itself be a `%HH` escape) whose
value lies in `[lo, hi]`. -/
def pctCont (cs : List Char) (lo hi : Nat) : Option (Nat × List Char) :=
  match pctByte cs with
  | some (b, rest) => if lo ≤ b && b ≤ hi then some (b % 64, rest) else none
  | none => none

/-- Core of `decodeURIComponent` with explicit fuel (each step consumes at
least one character, so fuel `cs.length + 1` always suffices). -/
def decodeURICore : Nat → List Char → Option (List Char)
  | 0, _ => none
  | _, [] => some []
  | fuel + 1, '%' :: rest0 =>
    match pctByte ('%' :: rest0) with
    | none => none
    | some (b, rest) =>
      if b < 0x80 then
        match decodeURICore fuel rest with
        | some tail => some (Char.ofNat b :: tail)
        | none => none
      else if 0xC2 ≤ b && b ≤ 0xDF then
        match pctCont rest 0x80 0xBF with
        | some (v1, r1) =>
          match decodeURICore fuel r1 with
          | some tail => some (Char.ofNat ((b % 32) * 64 + v1) :: tail)
          | none => none
        | none => none
      else if 0xE0 ≤ b && b ≤ 0xEF then
        let lo1 := if b = 0xE0 then 0xA0 else 0x80
        let hi1 := if b = 0xED then 0x9F else 0xBF
        match pctCont rest lo1 hi1 with
        | some (v1, r1) =>
          match pctCont r1 0x80 0xBF with
          | some (v2, r2) =>
            match decodeURICore fuel r2 with
            | some tail => some (Char.ofNat ((b % 16) * 4096 + v1 * 64 + v2) :: tail)
            | none => none
          | none => none
        | none => none
      else if 0xF0 ≤ b && b ≤ 0xF4 then
        let lo1 := if b = 0xF0 then 0x90 else 0x80
        let hi1 := if b = 0xF4 then 0x8F else 0xBF
        match pctCont rest lo1 hi1 with
        | some (v1, r1) =>
          match pctCont r1 0x80 0xBF with
          | some (v2, r2) =>
            match pctCont r2 0x80 0xBF with
            | some (v3, r3) =>
              match decodeURICore fuel r3 with
              | some tail =>
                some (Char.ofNat ((b % 8) * 262144 + v1 * 4096 + v2 * 64 + v3) :: tail)
              | none => none
            | none => none
          | none => none
        | none => none
      else none
  | fuel + 1, c :: rest =>
    match decodeURICore fuel rest with
    | some tail => some (c :: tail)
    | none => none

/-- Model of `decodeURIComponent`; `none` models a thrown `URIError`. -/
def decodeURIComponentJS (cs : List Char) : Option (List Char) :=
  decodeURICore (cs.length + 1) cs

/-! ## src/lib/validation/url.ts -/

/-- Best-effort URL decode; returns the input as-is if decoding fails
(`safeDecodeUrl`). -/
def safeDecodeUrl (cs : List Char) : List Char :=
  (decodeURIComponentJS cs).getD cs

/-- First character of a URL scheme (regex class of plain letters). -/
def isSchemeStart (c : Char) : Bool := c.isAlpha

/-- Subsequent characters of a URL scheme: letters, digits, plus, hyphen, dot. -/
def isSchemeChar (c : Char) : Bool :=
  c.isAlpha || c.isDigit || c = '+' || c = '-' || c = '.'

/-- Model of `repairProtocol`: rewrite a leading `scheme:/` not followed by a
second slash into `scheme://`.  The scheme part of the regex can never
backtrack (a shorter scheme run would have to be followed by a colon, but it
is followed by a scheme character), so taking the maximal run is exact. -/
def repairProtocol (cs : List Char) : List Char :=
  match cs with
  | [] => []
  | c :: rest =>
    if isSchemeStart c then
      let run := rest.takeWhile isSchemeChar
      match rest.dropWhile isSchemeChar with
      | ':' :: '/' :: tail =>
        match tail with
        | '/' :: _ => cs
        | _ => c :: (run ++ ':' :: '/' :: '/' :: tail)
      | _ => cs
    else cs

/-- Model of `PROTOCOL_REGEX.test`: the string starts with
`scheme://`. -/
def protocolTest (cs : List Char) : Bool :=
  match cs with
  | [] => false
  | c :: rest =>
    isSchemeStart c &&
    (match rest.dropWhile isSchemeChar with
     | ':' :: '/' :: '/' :: _ => true
     | _ => false)

/-! ### validator.js `isIP` -/

/-- One decimal IPv4 octet as accepted by validator.js: `25[0-5]`,
`2[0-4][0-9]`, `1[0-9][0-9]`, `[1-9][0-9]` or `[0-9]` — i.e. one to three
digits, value at most 255, and no leading zero. -/
def ipv4Octet (p : List Char) : Bool :=
  p.length ≥ 1 && p.length ≤ 3 && p.all Char.isDigit &&
  (p.length = 1 || p.headI ≠ '0') && digitsToNat p ≤ 255

/-- Model of validator.js `isIP(str, 4)`. -/
def isIPv4 (cs : List Char) : Bool :=
  let parts := splitChar cs '.'
  parts.length = 4 && parts.all ipv4Octet

/-- One IPv6 hexadecimal group: one to four hex digits. -/
def ipv6Group (p : List Char) : Bool :=
  p.length ≥ 1 && p.length ≤ 4 && p.all isHexDigit

/-- Run of full hexadecimal groups, possibly ending in an embedded IPv4
address (which counts as two groups).  Returns the group count. -/
def ipv6Tail (ps : List (List Char)) : Option Nat :=
  match ps with
  | [] => some 0
  | [p] =>
    if ipv6Group p then some 1
    else if isIPv4 p then some 2
    else none
  | p :: rest =>
    if ipv6Group p then
      match ipv6Tail rest with
      | some n => some (n + 1)
      | none => none
    else none

/-- Model of the IPv6 address body accepted by validator.js's IPv6 regular
expression: eight groups (or six plus an embedded IPv4), or a single `::`
compression with at most seven groups in total; leading/trailing
compression shows up as two empty pieces after splitting on `:`. -/
def ipv6Addr (cs : List Char) : Bool :=
  let parts := splitChar cs ':'
  match parts with
  | [] => false
  | _ =>
    if parts.all (fun p => ¬ p.isEmpty) then
      -- no compression: exactly eight groups, IPv4 tail counting as two
      match ipv6Tail parts with
      | some n => n = 8
      | none => false
    else if parts = [[], [], []] then
      true  -- the bare address consisting only of the compression
    else
      match parts with
      | [] :: [] :: rest =>
        -- leading compression
        rest.all (fun p => ¬ p.isEmpty) &&
        (match ipv6Tail rest with
         | some n => n ≥ 1 && n ≤ 7
         | none => false)
      | _ =>
        let back2 := parts.reverse.take 2
        if back2 = [[], []] then
          -- trailing compression
          let front := parts.dropLast.dropLast
          front.all (fun p => ¬ p.isEmpty) &&
          (match ipv6Tail front with
           | some n => n ≥ 1 && n ≤ 7
           | none => false)
        else
          -- single internal compression
          (parts.countP List.isEmpty) = 1 &&
          (match parts.head?, parts.getLast? with
           | some h, some l => ¬ h.isEmpty && ¬ l.isEmpty
           | _, _ => false) &&
          (match ipv6Tail (parts.filter (fun p => ¬ p.isEmpty)) with
           | some n => n ≥ 2 && n ≤ 7
           | none => false)

/-- Model of validator.js `isIP(str, 6)`: the address body optionally
followed by a `%zone` suffix of characters in `[0-9a-zA-Z.]`. -/
def isIPv6 (cs : List Char) : Bool :=
  match splitFirstSub cs ['%'] with
  | none => ipv6Addr cs
  | some (addr, zone) =>
    ipv6Addr addr && ¬ zone.isEmpty &&
    zone.all (fun c => c.isAlphanum || c = '.')

/-- Model of validator.js `isIP` with no version argument. -/
def isIP (cs : List Char) : Bool := isIPv4 cs || isIPv6 cs

/-! ### Private IP ranges and `isPrivateIP` -/

/-- Regex piece for one to three decimal digits. -/
def d13 (p : List Char) : Bool :=
  p.length ≥ 1 && p.length ≤ 3 && p.all Char.isDigit

/-- Loopback range 127.0.0.0/8. -/
def range127 (cs : List Char) : Bool :=
  match splitChar cs '.' with
  | [a, b, c, d] => a = ['1', '2', '7'] && d13 b && d13 c && d13 d
  | _ => false

/-- Private class A range 10.0.0.0/8. -/
def range10 (cs : List Char) : Bool :=
  match splitChar cs '.' with
  | [a, b, c, d] => a = ['1', '0'] && d13 b && d13 c && d13 d
  | _ => false

/-- Private class C range 192.168.0.0/16. -/
def range192168 (cs : List Char) : Bool :=
  match splitChar cs '.' with
  | [a, b, c, d] =>
    a = ['1', '9', '2'] && b = ['1', '6', '8'] && d13 c && d13 d
  | _ => false

/-- Private class B range 172.16.0.0/12: second octet written `1[6-9]`,
`2[0-9]` or `3[0-1]`. -/
def range172 (cs : List Char) : Bool :=
  match splitChar cs '.' with
  | [a, b, c, d] =>
    a = ['1', '7', '2'] &&
    (match b with
     | [x, y] =>
       (x = '1' && '6' ≤ y && y ≤ '9') ||
       (x = '2' && y.isDigit) ||
       (x = '3' && ('0' = y || y = '1'))
     | _ => false) &&
    d13 c && d13 d
  | _ => false

/-- The any-address 0.0.0.0. -/
def range0000 (cs : List Char) : Bool := cs = ['0', '.', '0', '.', '0', '.', '0']

/-- IPv6 loopback `::1`. -/
def rangeV6Loopback (cs : List Char) : Bool := cs = [':', ':', '1']

/-- IPv6 unique local addresses fc00::/7: `[fF][cCdD]` then two hex digits
then a colon (the regex tail `.*` accepts anything afterwards). -/
def rangeV6ULA (cs : List Char) : Bool :=
  match cs with
  | c0 :: c1 :: c2 :: c3 :: c4 :: _ =>
    (c0 = 'f' || c0 = 'F') && (c1 = 'c' || c1 = 'C' || c1 = 'd' || c1 = 'D') &&
    isHexDigit c2 && isHexDigit c3 && c4 = ':'
  | _ => false

/-- IPv6 link-local addresses fe80::/10: `[fF][eE][89aAbB]` then one hex
digit then a colon. -/
def rangeV6LinkLocal (cs : List Char) : Bool :=
  match cs with
  | c0 :: c1 :: c2 :: c3 :: c4 :: _ =>
    (c0 = 'f' || c0 = 'F') && (c1 = 'e' || c1 = 'E') &&
    (c2 = '8' || c2 = '9' || c2 = 'a' || c2 = 'A' || c2 = 'b' || c2 = 'B') &&
    isHexDigit c3 && c4 = ':'
  | _ => false

/-- The PRIVATE_IP_RANGES list of url.ts, as predicates. -/
def PRIVATE_IP_RANGES : List (List Char → Bool) :=
  [range127, range10, range192168, range172, range0000,
   rangeV6Loopback, rangeV6ULA, rangeV6LinkLocal]

/-- Model of `isPrivateIP`: localhost and `*.local` are private; strings
that look like IP addresses are checked against the private ranges; all
other strings (domain names) are accepted as public — no DNS resolution is
attempted. -/
def isPrivateIP (hostname : List Char) : Bool :=
  if hostname = "localhost".data || (".local".data).isSuffixOf hostname then
    true
  else if isIP hostname then
    PRIVATE_IP_RANGES.any (fun r => r hostname)
  else
    false

/-! ### WHATWG URL model

A simplified model of the WHATWG `URL` class, sufficient for the
`scheme://host[:port]/path[?query][#fragment]` strings the repository feeds
it (every `candidate` built by `normalizeUrl` starts with `scheme://`).
Hosts are kept textual (ASCII-lowercased; bracketed IPv6 hosts are kept
bracketed, exactly as the real `URL.hostname` getter reports them); query
strings are parsed into a list of name/value pairs following
application/x-www-form-urlencoded. -/

structure URLRec where
  scheme : List Char
  userinfo : Option (List Char)
  host : List Char
  port : Option Nat
  path : List Char
  params : List (List Char × List Char)
  fragment : Option (List Char)
deriving DecidableEq, Repr

/-- Lenient percent decoding used by URLSearchParams: `+` becomes a space,
a valid `%HH` escape becomes the octet's character, anything else is kept
as-is (multi-octet UTF-8 escape runs, which the repository never produces
in query strings, are not reassembled). -/
def formDecode : List Char → List Char
  | [] => []
  | '+' :: rest => ' ' :: formDecode rest
  | '%' :: h1 :: h2 :: rest =>
    match hexVal h1, hexVal h2 with
    | some a, some b => Char.ofNat (16 * a + b) :: formDecode rest
    | _, _ => '%' :: formDecode (h1 :: h2 :: rest)
  | c :: rest => c :: formDecode rest

/-- Parse an application/x-www-form-urlencoded query string into pairs;
empty pieces between `&`s are skipped, a piece without `=` gets the empty
value. -/
def parseForm (q : List Char) : List (List Char × List Char) :=
  (splitChar q '&').filterMap fun piece =>
    if piece.isEmpty then none
    else
      match splitFirstSub piece ['='] with
      | some (n, v) => some (formDecode n, formDecode v)
      | none => some (formDecode piece, [])

/-- Characters serialized verbatim by the form-urlencoded serializer. -/
def formSafe (c : Char) : Bool :=
  c.isAlphanum || c = '*' || c = '-' || c = '.' || c = '_'

def hexDigitUpper (n : Nat) : Char :=
  if n < 10 then Char.ofNat ('0'.toNat + n) else Char.ofNat ('A'.toNat + n - 10)

/-- Percent-encode one character for the form-urlencoded serializer
(space becomes `+`, unsafe characters become the `%HH` escapes of their
UTF-8 octets). -/
def formEncodeChar (c : Char) : List Char :=
  if formSafe c then [c]
  else if c = ' ' then ['+']
  else
    (String.utf8EncodeChar c).flatMap fun b =>
      ['%', hexDigitUpper (b.toNat / 16), hexDigitUpper (b.toNat % 16)]

def formEncode (cs : List Char) : List Char := cs.flatMap formEncodeChar

/-- Serialize a parameter list back to a query string. -/
def serializeForm (ps : List (List Char × List Char)) : List Char :=
  match ps with
  | [] => []
  | [(n, v)] => formEncode n ++ '=' :: formEncode v
  | (n, v) :: rest => formEncode n ++ '=' :: formEncode v ++ '&' :: serializeForm rest

/-- Characters that may not appear in a (non-bracketed) URL host. -/
def hostForbidden (c : Char) : Bool :=
  c = Char.ofNat 0 || c = ' ' || c = '#' || c = '%' || c = '/' || c = ':' ||
  c = '<' || c = '>' || c = '?' || c = '@' || c = '[' || c = '\\' ||
  c = ']' || c = '^' || c = '|'

/-- Parse the host-and-port part of an authority. -/
def parseHostPort (scheme hp : List Char) : Option (List Char × Option Nat) :=
  let portOf : List Char → Option (Option Nat) := fun p =>
    if p.isEmpty then some none
    else if p.all Char.isDigit && digitsToNat p ≤ 65535 then
      let n := digitsToNat p
      if (scheme = "http".data && n = 80) || (scheme = "https".data && n = 443) then
        some none
      else some (some n)
    else none
  match hp with
  | '[' :: rest =>
    match splitFirstSub rest [']'] with
    | some (inside, after) =>
      if inside.isEmpty || ¬ inside.all (fun c => isHexDigit c || c = ':' || c = '.') then
        none
      else
        let host := '[' :: inside ++ [']']
        match after with
        | [] => some (host, none)
        | ':' :: p =>
          match portOf p with
          | some port => some (host, port)
          | none => none
        | _ => none
    | none => none
  | _ =>
    let host := takeUntilChar hp ':'
    let rest := hp.drop host.length
    if host.isEmpty || host.any hostForbidden then none
    else
      let port? :=
        match rest with
        | [] => some none
        | ':' :: p => portOf p
        | _ => none
      match port? with
      | some port => some (lowerStr host, port)
      | none => none

/-- Model of `new URL(s)` on absolute `scheme://...` strings: `none`
models a thrown `TypeError`.  Dot-segment normalization and percent
re-encoding of paths, IPv4 canonicalization of numeric hosts and IDNA are
not modelled (the inputs the theorems below evaluate are already in
canonical form). -/
def parseURL (cs : List Char) : Option URLRec :=
  match cs with
  | [] => none
  | c0 :: rest =>
    if ¬ isSchemeStart c0 then none
    else
      let run := rest.takeWhile isSchemeChar
      match rest.dropWhile isSchemeChar with
      | ':' :: '/' :: '/' :: tail =>
        let scheme := lowerStr (c0 :: run)
        let auth := tail.takeWhile (fun c => c ≠ '/' && c ≠ '?' && c ≠ '#')
        let after := tail.drop auth.length
        -- userinfo: everything before the last '@' of the authority
        let hostpart := (takeUntilChar auth.reverse '@').reverse
        let userinfo :=
          if hostpart.length = auth.length then none
          else some (auth.take (auth.length - hostpart.length - 1))
        match parseHostPort scheme hostpart with
        | none => none
        | some (host, port) =>
          let rawPath := after.takeWhile (fun c => c ≠ '?' && c ≠ '#')
          let path := if rawPath.isEmpty then ['/'] else rawPath
          let after2 := after.drop rawPath.length
          match after2 with
          | '?' :: qf =>
            let q := takeUntilChar qf '#'
            let after3 := qf.drop q.length
            let frag :=
              match after3 with
              | '#' :: f => some f
              | _ => none
            some ⟨scheme, userinfo, host, port, path, parseForm q, frag⟩
          | '#' :: f => some ⟨scheme, userinfo, host, port, path, [], some f⟩
          | _ => some ⟨scheme, userinfo, host, port, path, [], none⟩
      | _ => none

/-- Model of `url.toString()` (the query component is re-serialized from
the parameter list, and omitted when the list is empty — exactly what the
real class does once `searchParams` has been updated). -/
def serializeURL (u : URLRec) : List Char :=
  u.scheme ++ ':' :: '/' :: '/' ::
  (match u.userinfo with
   | some ui => ui ++ ['@']
   | none => []) ++
  u.host ++
  (match u.port with
   | some p => ':' :: (Nat.toDigits 10 p)
   | none => []) ++
  u.path ++
  (match u.params with
   | [] => []
   | ps => '?' :: serializeForm ps) ++
  (match u.fragment with
   | some f => '#' :: f
   | none => [])

/-! ### validator.js `isURL` and `isFQDN` -/

/-- Model of validator.js `isFQDN` with the options `isURL` passes
(`require_tld: true`, `allow_underscores: true`, `allow_trailing_dot:
false`, `allow_numeric_tld: false`, `allow_wildcard: false`).  The regex
character classes admitting non-ASCII letters are modelled as "code point
at least U+00A1". -/
def isFQDN (cs : List Char) : Bool :=
  let parts := splitChar cs '.'
  let tld := parts.getLastI
  parts.length ≥ 2 &&
  ((tld.length ≥ 2 &&
    tld.all (fun c => c.isAlpha || 0xA1 ≤ c.toNat)) ||
   (ciListEq (tld.take 2) "xn".data && tld.length ≥ 4 &&
    (tld.drop 2).all (fun c => c.isLower || c.isUpper || c.isDigit || c = '-'))) &&
  ¬ tld.all Char.isDigit &&
  parts.all (fun part =>
    part.length ≤ 63 &&
    ¬ part.isEmpty &&
    part.all (fun c => c.isAlphanum || c = '_' || c = '-' || 0xA1 ≤ c.toNat) &&
    (match part.head? with
     | some h => h ≠ '-'
     | none => false) &&
    (match part.getLast? with
     | some l => l ≠ '-'
     | none => false))

/-- Result of the wrapped-IPv6 host match inside `isURL`:
`^\[([^\]]+)\](?::([0-9]+))?$`. -/
def wrappedIPv6 (hostname : List Char) : Option (List Char × Option (List Char)) :=
  match hostname with
  | '[' :: rest =>
    match splitFirstSub rest [']'] with
    | some (inside, after) =>
      if inside.isEmpty || inside.any (· = ']') then none
      else
        match after with
        | [] => some (inside, none)
        | ':' :: p => if ¬ p.isEmpty && p.all Char.isDigit then some (inside, some p) else none
        | _ => none
    | none => none
  | _ => none

/-- Model of validator.js `isURL` with the fixed URL_VALIDATION_OPTIONS of
url.ts (`protocols: [http, https]`, `require_protocol: true`,
`require_host: true`, fragments and query components allowed, underscores
allowed, protocol-relative URLs and length ≥ 2083 rejected). -/
def isURLb (cs : List Char) : Bool :=
  if cs.isEmpty then false
  else if cs.any (fun c => jsWS c || c = '<' || c = '>') then false
  else if ("mailto:".data).isPrefixOf cs then false
  else if 2083 ≤ cs.length then false
  else
    let u1 := takeUntilChar cs '#'
    let u2 := takeUntilChar u1 '?'
    match splitFirstSub u2 "://".data with
    | none => false
    | some (proto, rest) =>
      (lowerStr proto = "http".data || lowerStr proto = "https".data) &&
      ¬ rest.isEmpty &&
      (let hostPort := takeUntilChar rest '/'
       -- userinfo: validator keeps the part before the FIRST '@'
       let afterAuth :=
         match splitFirstSub hostPort ['@'] with
         | some (auth, hn) =>
           if auth.isEmpty then none
           else if (splitChar auth ':').length > 2 then none
           else if auth = [':'] then none
           else some hn
         | none => some hostPort
       match afterAuth with
       | none => false
       | some hostname =>
         match wrappedIPv6 hostname with
         | some (ipv6, port?) =>
           (match port? with
            | some p => digitsToNat p ≥ 1 && digitsToNat p ≤ 65535
            | none => true) &&
           isIPv6 ipv6
         | none =>
           let host := takeUntilChar hostname ':'
           let portStr := hostname.drop (host.length + 1)
           (hostname.length = host.length ||
            portStr.isEmpty ||
            (portStr.all Char.isDigit && digitsToNat portStr ≥ 1 &&
             digitsToNat portStr ≤ 65535)) &&
           (isIP host || isFQDN host))

/-! ### `normalizeUrl` and `extractArticleUrl` -/

/-- The three errors `normalizeUrl` can throw, by message. -/
inductive NormError where
  /-- message: Please enter a URL. -/
  | emptyInput
  /-- message: Access to private or local networks is restricted. -/
  | privateNetwork
  /-- message: Please enter a valid URL (e.g. example.com or https://example.com). -/
  | invalidUrl
deriving DecidableEq, Repr

/-- Safety check and validation applied by `normalizeUrl` to the
candidate string: reject private hosts when `new URL` succeeds at all
(its failure is swallowed by the catch), then validate with `isURL`. -/
def validateCandidate (candidate : List Char) : Except NormError (List Char) :=
  let privateHit :=
    match parseURL candidate with
    | some u => isPrivateIP u.host
    | none => false
  if privateHit then .error .privateNetwork
  else if isURLb candidate then .ok candidate
  else .error .invalidUrl

/-- Model of `normalizeUrl`: trim, best-effort percent-decode, repair a
collapsed protocol, default the protocol to https, reject private hosts,
and validate with `isURL`. -/
def normalizeUrlL (input : List Char) : Except NormError (List Char) :=
  let trimmed := jsTrim input
  if trimmed.isEmpty then .error .emptyInput
  else
    let decoded := safeDecodeUrl trimmed
    let repaired := repairProtocol decoded
    let candidate := if protocolTest repaired then repaired else "https://".data ++ repaired
    validateCandidate candidate

/-- App-specific query parameters stripped from cache keys. -/
def APP_QUERY_PARAMS : List (List Char) := ["source".data, "view".data, "sidebar".data]

/-- Remove the app-injected query parameters (the three
`searchParams.delete` calls). -/
def deleteAppParams (u : URLRec) : URLRec :=
  { u with params := u.params.filter (fun p => ¬ APP_QUERY_PARAMS.contains p.1) }

/-- Strip one trailing slash from a non-root pathname string
(`url.pathname.length > 1 && url.pathname.endsWith('/')` guarding
`pathname.slice(0, -1)`). -/
def stripSlash (p : List Char) : List Char :=
  if p.length > 1 && p.getLast? = some '/' then p.dropLast else p

/-- The trailing-slash normalization step on the parsed URL. -/
def stripTrailingSlash (u : URLRec) : URLRec :=
  { u with path := stripSlash u.path }

/-- Model of `extractArticleUrl`: normalize, parse, drop app parameters,
normalize the trailing slash, serialize; when `new URL` fails the
normalized string itself is returned (the catch branch re-runs
`normalizeUrl`, which deterministically returns the same value). -/
def extractArticleUrlL (input : List Char) : Except NormError (List Char) :=
  match normalizeUrlL input with
  | .error e => .error e
  | .ok n =>
    match parseURL n with
    | none => .ok n
    | some u => .ok (serializeURL (stripTrailingSlash (deleteAppParams u)))

/-- String-level wrapper for `normalizeUrl`. -/
def normalizeUrl (s : String) : Except NormError String :=
  (normalizeUrlL s.data).map String.mk

/-- String-level wrapper for `extractArticleUrl`. -/
def extractArticleUrl (s : String) : Except NormError String :=
  (extractArticleUrlL s.data).map String.mk

/-! ## src/lib/sanitize-ads.ts -/

/-- The AD_KEYWORDS list, in source order (duplicates included). -/
def AD_KEYWORDS : List (List Char) :=
  ["publicidade".data, "patrocinado".data, "anúncio".data, "propaganda".data,
   "advertisement".data, "sponsored".data, "sponsored content".data,
   "ads".data, "ad".data, "advertising".data,
   "publicidad".data, "patrocinado".data, "anuncio".data,
   "werbung".data, "anzeige".data, "gesponsert".data,
   "publicité".data, "sponsorisé".data, "annonce".data,
   "pubblicità".data, "sponsorizzato".data,
   "advertentie".data, "gesponsord".data,
   "skip advertisement".data, "skip ad".data]

/-- Case-insensitive keyword match at the head of `cs`; returns the
remainder on success. -/
def ciKeywordAt : List Char → List Char → Option (List Char)
  | [], rest => some rest
  | k :: ks, c :: rest => if ciEq k c then ciKeywordAt ks rest else none
  | _ :: _, [] => none

/-- Length of the leading JS-whitespace run. -/
def wsRun (cs : List Char) : Nat := (cs.takeWhile jsWS).length

/-- Greedy trailing part of the line pattern: the largest whitespace run
after which the multi-line `$` anchor holds (end of input or a newline
right after).  `none` when no run length works. -/
def tailWS (cs : List Char) : Option Nat :=
  (List.range (wsRun cs + 1)).reverse.findSome? fun m =>
    match cs.drop m with
    | [] => some m
    | '\n' :: _ => some m
    | _ => none

/-- Length matched by the isolated-ad-line pattern (the regex of
`buildTextLinePattern`) at a line-start position: greedy leading
whitespace (longest first, backtracking), the keyword alternatives in
source order, then the greedy trailing whitespace with the `$` anchor. -/
def lineMatchLen (cs : List Char) : Option Nat :=
  (List.range (wsRun cs + 1)).reverse.findSome? fun n =>
    AD_KEYWORDS.findSome? fun kw =>
      match ciKeywordAt kw (cs.drop n) with
      | some rest =>
        match tailWS rest with
        | some m => some (n + kw.length + m)
        | none => none
      | none => none

/-- Global replacement of isolated ad lines with the empty string, walking
the string once; `atStart` records whether the multi-line `^` anchor holds
at the current position.  Each step consumes at least one character, so
fuel `length + 1` suffices. -/
def replaceAdLines : Nat → Bool → List Char → List Char
  | 0, _, cs => cs
  | _, _, [] => []
  | fuel + 1, atStart, c :: rest =>
    if atStart then
      match lineMatchLen (c :: rest) with
      | some len =>
        let matched := (c :: rest).take len
        replaceAdLines fuel (matched.getLast? = some '\n') ((c :: rest).drop len)
      | none => c :: replaceAdLines fuel (c = '\n') rest
    else c :: replaceAdLines fuel (c = '\n') rest

/-- Length of the leading newline run. -/
def nlRun (cs : List Char) : Nat := (cs.takeWhile (· = '\n')).length

/-- Collapse runs of three or more newlines to exactly two. -/
def collapseNewlines : Nat → List Char → List Char
  | 0, cs => cs
  | _, [] => []
  | fuel + 1, '\n' :: rest =>
    let r := 1 + nlRun rest
    (if r ≥ 3 then ['\n', '\n'] else List.replicate r '\n') ++
      collapseNewlines fuel (rest.drop (r - 1))
  | fuel + 1, c :: rest => c :: collapseNewlines fuel rest

/-- Model of `sanitizeText`: drop isolated ad-keyword lines, collapse long
newline runs, trim. -/
def sanitizeText (cs : List Char) : List Char :=
  if cs.isEmpty then cs
  else
    let r1 := replaceAdLines (cs.length + 1) true cs
    jsTrim (collapseNewlines (r1.length + 1) r1)

/-! ## src/app/api/article/route.ts -/

/-- The cached-article record (CachedArticle).  The `content`, `lang` and
`dir` fields of the zod schema are carried opaquely by the route and are
read by none of the verified properties, so the embedding omits them; of
the remaining fields the schema constrains only `length`
(`z.number().int().positive()`).  `length : Int` models the JS number
(always set to a string length by the constructors, but cached blobs are
arbitrary). -/
structure CachedArticle where
  title : List Char
  textContent : List Char
  length : Int
  siteName : List Char
  byline : Option (List Char)
  publishedTime : Option (List Char)
  image : Option (List Char)
  htmlContent : Option (List Char)
deriving DecidableEq, Repr

instance : Inhabited CachedArticle :=
  ⟨⟨[], [], 0, [], none, none, none, none⟩⟩

/-- JS truthiness of an optional string field: `undefined`, `null` and the
empty string are falsy. -/
def jsTruthy : Option (List Char) → Bool
  | some s => ¬ s.isEmpty
  | none => false

/-- Schema validity (`CachedArticleSchema.safeParse` succeeds): on the
embedded fields the only constraint is a positive integral length. -/
def validCached (a : CachedArticle) : Bool := 0 < a.length

/-- Model of `saveOrReturnLongerArticle`.  The cache is an optional
(possibly schema-invalid) record; the result is the article returned to
the caller together with the cache state afterwards.  An invalid incoming
article throws inside the outer `try`, whose `catch` returns the incoming
article with nothing saved. -/
def saveOrReturnLongerArticle (cached : Option CachedArticle)
    (incoming : CachedArticle) : CachedArticle × Option CachedArticle :=
  if ¬ validCached incoming then (incoming, cached)
  else
    match cached with
    | some existing =>
      if ¬ validCached existing then (incoming, some incoming)
      else if ¬ jsTruthy existing.htmlContent && jsTruthy incoming.htmlContent then
        (incoming, some incoming)
      else if existing.length < incoming.length then (incoming, some incoming)
      else (existing, some existing)
    | none => (incoming, some incoming)

/-- Model of `calculateQuality`. -/
def calculateQuality (a : CachedArticle) : Nat :=
  a.textContent.length +
  (if jsTruthy a.byline then 100 else 0) +
  (if jsTruthy a.publishedTime then 100 else 0) +
  (if jsTruthy a.image then 50 else 0)

inductive FetchStrategy where
  | browser
  | googlebot
deriving DecidableEq, Repr

/-- Result of a single fetch attempt (the FetchResult interface). -/
structure FetchResult where
  success : Bool
  strategy : FetchStrategy
  html : Option (List Char)
  article : Option CachedArticle
  quality : Nat
  error : Option (List Char)
deriving DecidableEq, Repr

/-- Stable insertion step for the descending-by-quality sort: the element
being inserted comes earlier in the original list than everything already
inserted, so it skips only strictly higher-quality elements and lands
before equal-quality ones. -/
def insertByQuality (x : FetchResult) : List FetchResult → List FetchResult
  | [] => [x]
  | y :: ys =>
    if x.quality < y.quality then y :: insertByQuality x ys else x :: y :: ys

/-- Stable sort by descending quality.  `Array.prototype.sort` with the
comparator `(a, b) => b.quality - a.quality` is specified (ES2019) to be
stable, so its output is exactly this insertion sort's. -/
def sortByQualityDesc : List FetchResult → List FetchResult
  | [] => []
  | x :: xs => insertByQuality x (sortByQualityDesc xs)

/-- The result-arbitration step of `fetchArticleWithFast`: keep successful
results carrying an article, sort by descending quality (stable), take the
head. -/
def selectBest (results : List FetchResult) : Option FetchResult :=
  (sortByQualityDesc (results.filter fun r => r.success && r.article.isSome)).head?

/-! ### Single-attempt fetching and classification -/

/-- How the body read of a 2xx response went. -/
inductive BodyOutcome where
  /-- body delivered within the body-read timeout -/
  | ok (html : List Char)
  /-- body not completed within bodyTimeoutMs of the headers (tarpit) -/
  | timesOut
deriving DecidableEq, Repr

/-- Observable behaviour of the network for one attempt. -/
inductive ResponseOutcome where
  /-- transport-level abort before headers arrived (AbortError) -/
  | abortBeforeHeaders
  /-- headers arrived with a status and header list, then the body behaved
  as `body` says -/
  | response (status : Nat) (headers : List (List Char × List Char)) (body : BodyOutcome)
deriving DecidableEq, Repr

/-- Failure payload of `tryFetchWithStrategy` (the
`{ status, blocked, headers? }` branch of its union result). -/
structure StrategyFailure where
  status : Nat
  blocked : Bool
  headers : Option (List (List Char × List Char))
deriving DecidableEq, Repr

/-- Result union of `tryFetchWithStrategy`. -/
inductive StrategyResult where
  | html (content : List Char) (strategy : FetchStrategy)
  | failure (f : StrategyFailure)
deriving DecidableEq, Repr

/-- Model of `tryFetchWithStrategy`'s classification of one response:
401/403/429 are blocked (with headers); other non-2xx are failed, not
blocked (with headers); a body-read timeout after 2xx headers is blocked
with the synthetic status 408 (with headers); a transport abort is a
timeout, not blocked, without headers. -/
def tryFetchWithStrategy (strategy : FetchStrategy) (o : ResponseOutcome) :
    StrategyResult :=
  match o with
  | .abortBeforeHeaders => .failure ⟨408, false, none⟩
  | .response status headers body =>
    if status = 401 || status = 403 || status = 429 then
      .failure ⟨status, true, some headers⟩
    else if ¬ (200 ≤ status && status ≤ 299) then
      .failure ⟨status, false, some headers⟩
    else
      match body with
      | .ok html => .html html strategy
      | .timesOut => .failure ⟨408, true, some headers⟩

/-! ### Cookie jar -/

/-- The allow-listed cookie names of `extractSetCookies`. -/
def cookieAllowList : List (List Char) :=
  ["datadome".data, "cf_clearance".data, "__cf_bm".data]

def cookieNameStart (c : Char) : Bool := c.isAlpha || c = '_'

def cookieNameChar (c : Char) : Bool := c.isAlphanum || c = '_' || c = '-'

/-- The lookahead of the cookie-splitting regex: optional whitespace, a
cookie-name shaped token, then `=`. -/
def cookieSplitHere (cs : List Char) : Bool :=
  match cs.dropWhile jsWS with
  | c :: rest =>
    cookieNameStart c &&
    (match rest.dropWhile cookieNameChar with
     | '=' :: _ => true
     | _ => false)
  | [] => false

/-- Split a Set-Cookie header on commas followed by the cookie-name
lookahead. -/
def splitCookieStr : List Char → List (List Char)
  | [] => [[]]
  | c :: rest =>
    if c = ',' && cookieSplitHere rest then
      [] :: splitCookieStr rest
    else
      match splitCookieStr rest with
      | h :: t => (c :: h) :: t
      | [] => [[c]]

/-- Parse one cookie string with `^\s*([^=]+)=([^;]*)`: name is the
trimmed part before the first `=` (which must be nonempty), value the
trimmed part after it up to the first `;`. -/
def parseCookiePair (piece : List Char) : Option (List Char × List Char) :=
  let pre := takeUntilChar piece '='
  if pre.length = piece.length then none
  else if pre.isEmpty then none
  else
    let vraw := takeUntilChar (piece.drop (pre.length + 1)) ';'
    some (jsTrim pre, jsTrim vraw)

/-- JS `Map.prototype.set`: overwrite in place or append. -/
def mapSet (m : List (List Char × List Char)) (k v : List Char) :
    List (List Char × List Char) :=
  if (m.find? (fun p => p.1 = k)).isSome then
    m.map fun p => if p.1 = k then (k, v) else p
  else m ++ [(k, v)]

/-- Case-insensitive-free lookup of a (already lower-cased) header name. -/
def headerLookup (headers : List (List Char × List Char)) (name : List Char) :
    Option (List Char) :=
  (headers.find? fun p => p.1 = name).map (·.2)

/-- Accumulation step of `extractSetCookies` over one cookie string:
store the pair only when the name is allow-listed. -/
def cookieStep (m : List (List Char × List Char)) (piece : List Char) :
    List (List Char × List Char) :=
  match parseCookiePair piece with
  | some (n, v) => if cookieAllowList.contains n then mapSet m n v else m
  | none => m

/-- Model of `extractSetCookies`: split the `set-cookie` header value,
parse each piece, keep only the allow-listed names. -/
def extractSetCookies (headers : List (List Char × List Char)) :
    List (List Char × List Char) :=
  match headerLookup headers "set-cookie".data with
  | none => []
  | some sc => (splitCookieStr sc).foldl cookieStep []

/-- Merge freshly extracted cookies into the jar (the
`newCookies.forEach((value, key) => cookieJar.cookies.set(key, value))`
loop). -/
def jarMerge (jar fresh : List (List Char × List Char)) :
    List (List Char × List Char) :=
  fresh.foldl (fun j p => mapSet j p.1 p.2) jar

/-! ### One attempt with parsing (`tryFetchAndParse`) -/

/-- Model of `tryFetchAndParse` for one attempt.  `o` is the network's
behaviour; `parse` is the outcome of `parseHtmlToArticle` on a body (the
Readability extraction, external input to this attempt).  Returns the
FetchResult together with the cookie jar afterwards: cookies are
accumulated exactly when the strategy result carries headers. -/
def tryFetchAndParse (strategy : FetchStrategy) (o : ResponseOutcome)
    (parse : List Char → Option CachedArticle)
    (jar : List (List Char × List Char)) :
    FetchResult × List (List Char × List Char) :=
  let result := tryFetchWithStrategy strategy o
  let jar' :=
    match result with
    | .failure f =>
      match f.headers with
      | some h => jarMerge jar (extractSetCookies h)
      | none => jar
    | .html _ _ => jar
  match result with
  | .failure f =>
    (⟨false, strategy, none, none, 0,
      some ("HTTP ".data ++ Nat.toDigits 10 f.status)⟩, jar')
  | .html html _ =>
    match parse html with
    | none =>
      (⟨false, strategy, some html, none, 0,
        some "Readability extraction failed".data⟩, jar')
    | some article =>
      (⟨true, strategy, some html, some article, calculateQuality article, none⟩, jar')

/-! ### The fast-fetch attempt sequence (`fetchArticleWithFast`) -/

/-- Environment of one `fetchArticleWithFast` run: what the network and
the Readability parser would do on each of the up-to-three attempts. -/
structure FastEnv where
  o1 : ResponseOutcome
  o2 : ResponseOutcome
  o3 : ResponseOutcome
  parse1 : List Char → Option CachedArticle
  parse2 : List Char → Option CachedArticle
  parse3 : List Char → Option CachedArticle

/-- Trace of one run: the attempt numbers performed, the collected
results, the final jar and the outcome (article, or the error message of
the all-failed branch). -/
structure FastRun where
  attempts : List Nat
  results : List FetchResult
  jar : List (List Char × List Char)
  outcome : Except (List Char) CachedArticle

/-- The error used when every strategy failed:
`results[results.length - 1]?.error || 'Unknown error'`. -/
def lastErrorOf (rs : List FetchResult) : List Char :=
  ((rs.getLast?.bind (·.error)).getD "Unknown error".data)

/-- The pick-the-best-or-fail tail of `fetchArticleWithFast`. -/
def arbitrate (results : List FetchResult) : Except (List Char) CachedArticle :=
  match selectBest results with
  | some best => .ok (best.article.getD default)
  | none => .error ("All fetch strategies failed: ".data ++ lastErrorOf results)

/-- Attempt 1 of a run: browser identity, empty jar. -/
def fastFirst (env : FastEnv) : FetchResult × List (List Char × List Char) :=
  tryFetchAndParse .browser env.o1 env.parse1 []

/-- Attempt 2 of a run (when performed): googlebot identity, jar of
attempt 1. -/
def fastSecond (env : FastEnv) : FetchResult × List (List Char × List Char) :=
  tryFetchAndParse .googlebot env.o2 env.parse2 (fastFirst env).2

/-- Model of the `fetchArticleWithFast` control flow: attempt 1 with the
browser identity; early return on success with quality above 3000;
attempt 2 with the googlebot identity when the first attempt failed or
its quality is below 3000; attempt 3 with the browser identity iff the
jar is then non-empty; otherwise arbitration by quality, or failure
carrying the last result's error. -/
def fetchArticleWithFast (env : FastEnv) : FastRun :=
  let r1 := (fastFirst env).1
  if r1.success && r1.quality > 3000 then
    ⟨[1], [r1], (fastFirst env).2, .ok (r1.article.getD default)⟩
  else
    let doSecond := ¬ r1.success || r1.quality < 3000
    let attempts2 : List Nat := if doSecond then [1, 2] else [1]
    let results2 := if doSecond then [r1, (fastSecond env).1] else [r1]
    let jar2 := if doSecond then (fastSecond env).2 else (fastFirst env).2
    let doThird := jar2.length > 0
    let step3 := tryFetchAndParse .browser env.o3 env.parse3 jar2
    let attempts3 := if doThird then attempts2 ++ [3] else attempts2
    let results3 := if doThird then results2 ++ [step3.1] else results2
    let jar3 := if doThird then step3.2 else jar2
    ⟨attempts3, results3, jar3, arbitrate results3⟩

/-! ### Article constructors -/

/-- Outcome of the external JSDOM/Readability parse and the DOM metadata
extractors, as consumed by the article constructors.  These values come
from outside the verified code (remote HTML fed through Readability), so
they are inputs of the embedding. -/
structure ParsedDoc where
  title : List Char
  content : List Char
  textContent : List Char
  byline : Option (List Char)
  siteName : Option (List Char)
  docTitle : List Char
  pubTime : Option (List Char)
  image : Option (List Char)

/-- Model of `parseHtmlToArticle`: guard on the body size and the
Readability outcome, build the record — storing the sanitized text but
the unsanitized text's length — and validate it against the schema. -/
def parseHtmlToArticle (html url : List Char) (readability : Option ParsedDoc) :
    Option CachedArticle :=
  if html.isEmpty || html.length < 100 then none
  else
    match readability with
    | none => none
    | some p =>
      if p.content.isEmpty || p.textContent.isEmpty then none
      else
        let a : CachedArticle :=
          { title :=
              if ¬ p.title.isEmpty then p.title
              else if ¬ p.docTitle.isEmpty then p.docTitle
              else "Untitled".data
            textContent := sanitizeText p.textContent
            length := (p.textContent.length : Int)
            siteName :=
              match parseURL url with
              | some u => u.host
              | none => p.siteName.getD "unknown".data
            byline := p.byline
            publishedTime := p.pubTime
            image := p.image
            htmlContent := some html }
        if validCached a then some a else none

/-- Model of the record construction inside `fetchArticleWithWayback`
(after its HTTP and emptiness guards): identical to the direct parse
except that the site name falls back to archive.org and the original
archived page HTML is stored. -/
def waybackArticle (html originalUrl : List Char) (readability : Option ParsedDoc) :
    Option CachedArticle :=
  if html.isEmpty then none
  else
    match readability with
    | none => none
    | some p =>
      if p.content.isEmpty || p.textContent.isEmpty then none
      else
        let a : CachedArticle :=
          { title :=
              if ¬ p.title.isEmpty then p.title
              else if ¬ p.docTitle.isEmpty then p.docTitle
              else "Untitled".data
            textContent := sanitizeText p.textContent
            length := (p.textContent.length : Int)
            siteName :=
              match parseURL originalUrl with
              | some u => u.host
              | none => p.siteName.getD "archive.org".data
            byline := p.byline
            publishedTime := p.pubTime
            image := p.image
            htmlContent := some html }
        if validCached a then some a else none

/-- The validated Diffbot response (DiffbotArticleSchema): title, html,
text and siteName must be non-empty strings. -/
structure DiffbotArticle where
  title : List Char
  html : List Char
  text : List Char
  siteName : List Char
  byline : Option (List Char)
  publishedTime : Option (List Char)
  image : Option (List Char)
  htmlContent : Option (List Char)

def diffbotValid (d : DiffbotArticle) : Bool :=
  ¬ d.title.isEmpty && ¬ d.html.isEmpty && ¬ d.text.isEmpty && ¬ d.siteName.isEmpty

/-- Model of the record construction inside
`fetchArticleWithDiffbotWrapper`: validate the remote adapter's response,
then build the record — again storing sanitized text with the raw text's
length. -/
def fetchArticleWithDiffbotWrapper (d : DiffbotArticle) : Option CachedArticle :=
  if ¬ diffbotValid d then none
  else
    some
      { title := d.title
        textContent := sanitizeText d.text
        length := (d.text.length : Int)
        siteName := d.siteName
        byline := d.byline
        publishedTime := d.publishedTime
        image := d.image
        htmlContent := d.htmlContent }

/-! ## Scenario inputs and specification-side helpers for the claims -/

/-- Existing cached record of the claim's first scenario: length 300,
htmlContent present. -/
def c1Existing : CachedArticle :=
  ⟨"t".data, "x".data, 300, "s".data, none, none, none, some "<p>h</p>".data⟩

/-- Incoming record of the claim's first scenario: length 900, no
htmlContent. -/
def c1Incoming : CachedArticle :=
  ⟨"t".data, "y".data, 900, "s".data, none, none, none, none⟩

/-- Existing record of the claim's second scenario: length 300, no
htmlContent. -/
def c1ExistingB : CachedArticle :=
  ⟨"t".data, "x".data, 300, "s".data, none, none, none, none⟩

/-- Incoming record of the claim's second scenario: length 100 with
htmlContent. -/
def c1IncomingB : CachedArticle :=
  ⟨"t".data, "y".data, 100, "s".data, none, none, none, some "<p>h</p>".data⟩

/-- Specification-side arbitration: the first element of maximal quality
(ties keep the earlier element). -/
def firstMaxByQuality : List FetchResult → Option FetchResult
  | [] => none
  | x :: xs =>
    match firstMaxByQuality xs with
    | none => some x
    | some y => some (if y.quality > x.quality then y else x)

/-- Article with a 500-character text and no metadata. -/
def c5Rec500 : CachedArticle :=
  ⟨"t".data, List.replicate 500 'a', 500, "s".data, none, none, none, none⟩

/-- Article with an 800-character text and no metadata. -/
def c5Rec800 : CachedArticle :=
  ⟨"t".data, List.replicate 800 'a', 800, "s".data, none, none, none, none⟩

/-- Article with a 500-character text and a byline. -/
def c5Rec500Byline : CachedArticle :=
  ⟨"t".data, List.replicate 500 'a', 500, "s".data, some "Bob".data, none, none, none⟩

/-- Article with a 500-character text of different content (for the
tie-break scenario). -/
def c5Rec500B : CachedArticle :=
  ⟨"t".data, List.replicate 500 'b', 500, "s".data, none, none, none, none⟩

/-- A successful attempt result carrying the given article, scored by
`calculateQuality` as `tryFetchAndParse` does. -/
def c5Attempt (a : CachedArticle) : FetchResult :=
  ⟨true, .browser, some [], some a, calculateQuality a, none⟩

/-- The Set-Cookie headers of the C9 scenario: a single allow-listed
DataDome cookie. -/
def c9Headers : List (List Char × List Char) :=
  [("set-cookie".data, "datadome=abc; Path=/; Secure".data)]

/-- A small parsed article for the C9 scenario. -/
def c9Article : CachedArticle :=
  ⟨"t".data, "body".data, 4, "s".data, none, none, none, some "<p>b</p>".data⟩

/-- A validated Diffbot response whose text has a leading space: the
sanitizer trims it, so the stored text is one character shorter than the
stored length. -/
def c8Diffbot : DiffbotArticle :=
  ⟨"T".data, "<p>h</p>".data, " x".data, "site".data, none, none, none, none⟩

/-- The record the Diffbot wrapper builds from `c8Diffbot`. -/
def c8Broken : CachedArticle :=
  ⟨"T".data, "x".data, 2, "site".data, none, none, none, none⟩

/-- Jar contents after the attempts preceding attempt 3. -/
def fastJarPrior (env : FastEnv) : List (List Char × List Char) :=
  if ¬ (fastFirst env).1.success || (fastFirst env).1.quality < 3000 then
    (fastSecond env).2
  else (fastFirst env).2

/-- Article whose quality score is exactly the threshold 3000. -/
def c6Article : CachedArticle :=
  ⟨"t".data, List.replicate 3000 'a', 3000, "s".data, none, none, none,
   some "<p>h</p>".data⟩

/-- Environment whose first attempt succeeds with quality exactly 3000
and harvests no cookies. -/
def c6Env : FastEnv :=
  ⟨.response 200 [] (.ok "<html>ok</html>".data), .abortBeforeHeaders,
   .abortBeforeHeaders, fun _ => some c6Article, fun _ => none, fun _ => none⟩

/-- Environment in which every attempt aborts at the transport level. -/
def c6FailEnv : FastEnv :=
  ⟨.abortBeforeHeaders, .abortBeforeHeaders, .abortBeforeHeaders,
   fun _ => none, fun _ => none, fun _ => none⟩

/-- Parsed URL with a trailing slash and an app parameter (C4 witness
input). -/
def c4U : URLRec :=
  ⟨"https".data, none, "ex.com".data, none, "/a/".data,
   [("x".data, "1".data), ("source".data, "s".data)], none⟩

/-- Parsed URL without the trailing slash and app parameter (C4 witness
input). -/
def c4V : URLRec :=
  ⟨"https".data, none, "ex.com".data, none, "/a".data,
   [("x".data, "1".data)], none⟩

/-! ## Claim C10 -/

/-- C10: a hostname that is not exactly `localhost`, does not end in
`.local` and is not a syntactic IPv4 or IPv6 address literal (validator's
`isIP` rejects it) is never classified as private by `isPrivateIP` — no
DNS resolution is attempted, so domain names are always accepted as
public. -/
theorem c10_domain_names_never_private (h : List Char)
    (h1 : h ≠ "localhost".data)
    (h2 : (".local".data).isSuffixOf h = false)
    (h3 : isIP h = false) :
    isPrivateIP h = false := by
  unfold isPrivateIP
  simp [h1, h2, h3]

/-- C10 witness: the domain name example.com is not classified as
private. -/
theorem c10_domain_names_never_private_witness :
    isPrivateIP "example.com".data = false :=
  c10_domain_names_never_private "example.com".data
    (by decide) (by decide) (by decide)

/-! ## Claim C1 -/

/-- C1 counterexample: on a cache hit where the existing record (length
300) has htmlContent and the incoming record (length 900) lacks it, the
code returns and stores the longer incoming record — the HTML-completeness
rule only fires when the existing record lacks htmlContent and the
incoming one has it, so the claim's stated winner (the existing record,
with the store unchanged) is wrong. -/
theorem c1_counterexample :
    saveOrReturnLongerArticle (some c1Existing) c1Incoming =
      (c1Incoming, some c1Incoming) ∧
    c1Incoming ≠ c1Existing := by
  constructor
  · rfl
  · decide

/-- C1 (amended): on a cache hit with schema-valid existing and incoming
records the merge follows the code's precedence — the incoming record
wins when the existing record lacks (truthy) htmlContent and the incoming
record has it, otherwise the strictly longer incoming record wins,
otherwise the existing record wins and the store is unchanged; in
particular the incoming record wins and is stored in both of the claim's
scenarios (existing length 300 with htmlContent vs incoming 900 without;
existing 300 without htmlContent vs incoming 100 with it). -/
theorem c1_merge_resolution :
    (∀ existing incoming : CachedArticle,
      validCached existing = true → validCached incoming = true →
      saveOrReturnLongerArticle (some existing) incoming =
        if ¬ jsTruthy existing.htmlContent && jsTruthy incoming.htmlContent then
          (incoming, some incoming)
        else if existing.length < incoming.length then (incoming, some incoming)
        else (existing, some existing)) ∧
    saveOrReturnLongerArticle (some c1Existing) c1Incoming =
      (c1Incoming, some c1Incoming) ∧
    saveOrReturnLongerArticle (some c1ExistingB) c1IncomingB =
      (c1IncomingB, some c1IncomingB) := by
  refine ⟨fun existing incoming hex hinc => ?_, rfl, rfl⟩
  unfold saveOrReturnLongerArticle
  simp [hex, hinc]

/-- C1 witness: the amended precedence applied to the first scenario's
records. -/
theorem c1_merge_resolution_witness :
    saveOrReturnLongerArticle (some c1Existing) c1Incoming =
      (if ¬ jsTruthy c1Existing.htmlContent && jsTruthy c1Incoming.htmlContent then
        (c1Incoming, some c1Incoming)
      else if c1Existing.length < c1Incoming.length then (c1Incoming, some c1Incoming)
      else (c1Existing, some c1Existing)) :=
  c1_merge_resolution.1 c1Existing c1Incoming (by decide) (by decide)

/-! ## Claim C3 -/

/-- C3: the IPv4, localhost and public-host parts of the claim hold
(127.0.0.1, localhost and 192.168.1.1 are rejected with the
private-network error and 8.8.8.8 is returned unchanged), but the IPv6
part does not: the WHATWG URL class reports IPv6 hostnames in brackets,
`isPrivateIP` matches its IPv6 patterns only against unbracketed forms,
so `normalizeUrl` does not raise the private-network error for the IPv6
loopback URL — it accepts it unchanged. -/
theorem c3_private_network_check :
    normalizeUrl "http://127.0.0.1/x" = .error .privateNetwork ∧
    normalizeUrl "http://localhost" = .error .privateNetwork ∧
    normalizeUrl "http://192.168.1.1" = .error .privateNetwork ∧
    normalizeUrl "http://8.8.8.8" = .ok "http://8.8.8.8" ∧
    (parseURL "http://[::1]/".data).map URLRec.host = some "[::1]".data ∧
    isPrivateIP "[::1]".data = false ∧
    normalizeUrl "http://[::1]/" = .ok "http://[::1]/" := by
  refine ⟨rfl, rfl, rfl, rfl, rfl, by decide, rfl⟩

/-! ## Claim C5 -/

theorem firstMaxByQuality_eq_none {l : List FetchResult} :
    firstMaxByQuality l = none ↔ l = [] := by
  cases l with
  | nil => simp [firstMaxByQuality]
  | cons x xs =>
    simp only [firstMaxByQuality]
    cases firstMaxByQuality xs <;> simp

theorem head_insertByQuality (x : FetchResult) (l : List FetchResult) :
    (insertByQuality x l).head? =
      match l.head? with
      | none => some x
      | some y => some (if y.quality > x.quality then y else x) := by
  cases l with
  | nil => rfl
  | cons y ys =>
    simp only [insertByQuality, List.head?]
    by_cases h : x.quality < y.quality
    · rw [if_pos h]
      simp only [List.head?]
      rw [if_pos (by exact h)]
    · rw [if_neg h]
      simp only [List.head?]
      rw [if_neg (by exact h)]

theorem head_sortByQualityDesc (l : List FetchResult) :
    (sortByQualityDesc l).head? = firstMaxByQuality l := by
  induction l with
  | nil => rfl
  | cons x xs ih =>
    simp only [sortByQualityDesc, firstMaxByQuality, head_insertByQuality, ih]

theorem firstMaxByQuality_spec :
    ∀ {l : List FetchResult} {r : FetchResult}, firstMaxByQuality l = some r →
    r ∈ l ∧ (∀ x ∈ l, x.quality ≤ r.quality) ∧
    ∃ l1 l2, l = l1 ++ r :: l2 ∧ ∀ x ∈ l1, x.quality < r.quality := by
  intro l
  induction l with
  | nil => intro r h; simp [firstMaxByQuality] at h
  | cons x xs ih =>
    intro r h
    simp only [firstMaxByQuality] at h
    cases hxs : firstMaxByQuality xs with
    | none =>
      rw [hxs] at h
      simp only [Option.some.injEq] at h
      subst h
      have : xs = [] := firstMaxByQuality_eq_none.mp hxs
      subst this
      exact ⟨by simp, by simp, [], [], by simp, by simp⟩
    | some y =>
      rw [hxs] at h
      simp only [Option.some.injEq] at h
      obtain ⟨hy, hmax, l1, l2, hsplit, hlt⟩ := ih hxs
      by_cases hq : y.quality > x.quality
      · rw [if_pos hq] at h
        subst h
        refine ⟨List.mem_cons_of_mem x hy, ?_, x :: l1, l2, by simp [hsplit], ?_⟩
        · intro z hz
          rcases List.mem_cons.mp hz with hz | hz
          · subst hz; omega
          · exact hmax z hz
        · intro z hz
          rcases List.mem_cons.mp hz with hz | hz
          · subst hz; omega
          · exact hlt z hz
      · rw [if_neg hq] at h
        subst h
        refine ⟨List.mem_cons_self _ _, ?_, [], xs, by simp, by simp⟩
        intro z hz
        rcases List.mem_cons.mp hz with hz | hz
        · subst hz; omega
        · have := hmax z hz; omega

/-- C5: the quality score is the text length plus 100 for a (truthy)
byline, 100 for a publishedTime and 50 for an image; the arbitrator is
total on non-empty pools of successful candidates and returns a
maximal-quality successful candidate such that every successful candidate
preceding it scores strictly lower (ties favour the earlier attempt); in
particular the 800-length record beats the 500-length record, and at
equal length 500 the record with a byline wins; a pure tie keeps the
earlier attempt. -/
theorem c5_quality_arbitration :
    (∀ a : CachedArticle, calculateQuality a =
      a.textContent.length + (if jsTruthy a.byline then 100 else 0) +
      (if jsTruthy a.publishedTime then 100 else 0) +
      (if jsTruthy a.image then 50 else 0)) ∧
    (∀ l : List FetchResult,
      (∃ r ∈ l, r.success = true ∧ r.article.isSome = true) →
      (selectBest l).isSome = true) ∧
    (∀ l : List FetchResult, ∀ r : FetchResult, selectBest l = some r →
      (r ∈ l ∧ r.success = true ∧ r.article.isSome = true) ∧
      (∀ x ∈ l, x.success = true → x.article.isSome = true →
        x.quality ≤ r.quality) ∧
      (∃ l1 l2, l.filter (fun x => x.success && x.article.isSome) = l1 ++ r :: l2 ∧
        ∀ x ∈ l1, x.quality < r.quality)) ∧
    selectBest [c5Attempt c5Rec500, c5Attempt c5Rec800] = some (c5Attempt c5Rec800) ∧
    selectBest [c5Attempt c5Rec500, c5Attempt c5Rec500Byline] =
      some (c5Attempt c5Rec500Byline) ∧
    selectBest [c5Attempt c5Rec500, c5Attempt c5Rec500B] = some (c5Attempt c5Rec500) := by
  refine ⟨fun a => rfl, ?_, ?_, by decide, by decide, by decide⟩
  · intro l ⟨r, hr, hs, ha⟩
    have hmem : r ∈ l.filter (fun x => x.success && x.article.isSome) := by
      simp [List.mem_filter, hr, hs, ha]
    unfold selectBest
    rw [head_sortByQualityDesc]
    cases hfm : firstMaxByQuality (l.filter (fun x => x.success && x.article.isSome)) with
    | none =>
      rw [firstMaxByQuality_eq_none.mp hfm] at hmem
      simp at hmem
    | some y => simp
  · intro l r h
    unfold selectBest at h
    rw [head_sortByQualityDesc] at h
    obtain ⟨hmem, hmax, l1, l2, hsplit, hlt⟩ := firstMaxByQuality_spec h
    have hmem' := List.mem_filter.mp hmem
    have hp := hmem'.2
    simp only [Bool.and_eq_true] at hp
    refine ⟨⟨hmem'.1, hp.1, hp.2⟩, ?_, l1, l2, hsplit, hlt⟩
    intro x hx hxs hxa
    exact hmax x (List.mem_filter.mpr ⟨hx, by simp [hxs, hxa]⟩)

/-- C5 witness: the arbitration properties applied to the concrete
two-candidate pool of the claim's first scenario. -/
theorem c5_quality_arbitration_witness :
    (selectBest [c5Attempt c5Rec500, c5Attempt c5Rec800]).isSome = true ∧
    (c5Attempt c5Rec800) ∈ [c5Attempt c5Rec500, c5Attempt c5Rec800] :=
  ⟨c5_quality_arbitration.2.1 _ ⟨c5Attempt c5Rec500, by decide, by decide, by decide⟩,
   ((c5_quality_arbitration.2.2.1 _ _ c5_quality_arbitration.2.2.2.1).1).1⟩

/-! ## Claim C7 -/

/-- C7: classification of one fetch attempt — 401/403/429 responses are
Blocked carrying the response headers; any other non-2xx response is
Failed (not blocked) carrying the headers; a 2xx response whose body read
times out is Blocked with the synthetic status 408 and headers; a
transport-level abort before headers is a Timeout (status 408, not
blocked, no headers); and the body-timeout classification differs from
the head-timeout one and from every generic failure. -/
theorem c7_attempt_classification :
    (∀ (strat : FetchStrategy) (s : Nat) (h : List (List Char × List Char))
        (b : BodyOutcome), (s = 401 ∨ s = 403 ∨ s = 429) →
      tryFetchWithStrategy strat (.response s h b) = .failure ⟨s, true, some h⟩) ∧
    (∀ (strat : FetchStrategy) (s : Nat) (h : List (List Char × List Char))
        (b : BodyOutcome),
      ¬ (s = 401 ∨ s = 403 ∨ s = 429) → ¬ (200 ≤ s ∧ s ≤ 299) →
      tryFetchWithStrategy strat (.response s h b) = .failure ⟨s, false, some h⟩) ∧
    (∀ (strat : FetchStrategy) (s : Nat) (h : List (List Char × List Char)),
      200 ≤ s → s ≤ 299 →
      tryFetchWithStrategy strat (.response s h .timesOut) =
        .failure ⟨408, true, some h⟩) ∧
    (∀ strat : FetchStrategy,
      tryFetchWithStrategy strat .abortBeforeHeaders = .failure ⟨408, false, none⟩) ∧
    (∀ (h : List (List Char × List Char)) (s' : Nat)
        (oh' : Option (List (List Char × List Char))),
      (⟨408, true, some h⟩ : StrategyFailure) ≠ ⟨408, false, none⟩ ∧
      (⟨408, true, some h⟩ : StrategyFailure) ≠ ⟨s', false, oh'⟩) := by
  refine ⟨?_, ?_, ?_, fun _ => rfl, ?_⟩
  · intro strat s h b hs
    rcases hs with rfl | rfl | rfl <;> rfl
  · intro strat s h b h1 h2
    simp only [tryFetchWithStrategy]
    rw [if_neg (by simp only [Bool.or_eq_true, decide_eq_true_eq]; omega),
      if_pos (by simp only [Bool.and_eq_true, decide_eq_true_eq]; omega)]
  · intro strat s h h1 h2
    simp only [tryFetchWithStrategy]
    rw [if_neg (by simp; omega), if_neg (by simp; omega)]
  · intro h s' oh'
    exact ⟨by simp, by simp⟩

/-- C7 witness: the classification applied at a 403 response, a 500
response and a 2xx tarpit. -/
theorem c7_attempt_classification_witness :
    tryFetchWithStrategy .browser (.response 403 [] (.ok [])) =
      .failure ⟨403, true, some []⟩ ∧
    tryFetchWithStrategy .browser (.response 500 [] (.ok [])) =
      .failure ⟨500, false, some []⟩ ∧
    tryFetchWithStrategy .browser (.response 200 [] .timesOut) =
      .failure ⟨408, true, some []⟩ :=
  ⟨c7_attempt_classification.1 .browser 403 [] (.ok []) (by decide),
   c7_attempt_classification.2.1 .browser 500 [] (.ok []) (by decide) (by decide),
   c7_attempt_classification.2.2.1 .browser 200 [] (by decide) (by decide)⟩

/-! ## Claim C9 -/

theorem mem_mapSet {m : List (List Char × List Char)} {k v : List Char}
    {q : List Char × List Char} (hq : q ∈ mapSet m k v) :
    q = (k, v) ∨ q ∈ m := by
  unfold mapSet at hq
  split at hq
  · obtain ⟨x, hx, hfx⟩ := List.mem_map.mp hq
    by_cases hxk : x.1 = k
    · rw [if_pos hxk] at hfx
      exact Or.inl hfx.symm
    · rw [if_neg hxk] at hfx
      exact Or.inr (hfx ▸ hx)
  · rcases List.mem_append.mp hq with h | h
    · exact Or.inr h
    · exact Or.inl (by simpa using h)

theorem cookieStep_names {m : List (List Char × List Char)} {piece : List Char}
    (hm : ∀ q ∈ m, cookieAllowList.contains q.1 = true) :
    ∀ q ∈ cookieStep m piece, cookieAllowList.contains q.1 = true := by
  intro q hq
  unfold cookieStep at hq
  split at hq
  · split at hq
    · next n v _ hc =>
      rcases mem_mapSet hq with rfl | hmem
      · exact hc
      · exact hm q hmem
    · exact hm q hq
  · exact hm q hq

theorem foldl_cookieStep_names (pieces : List (List Char)) :
    ∀ m, (∀ q ∈ m, cookieAllowList.contains q.1 = true) →
    ∀ q ∈ pieces.foldl cookieStep m, cookieAllowList.contains q.1 = true := by
  induction pieces with
  | nil => intro m hm q hq; exact hm q hq
  | cons piece rest ih =>
    intro m hm q hq
    simp only [List.foldl_cons] at hq
    exact ih (cookieStep m piece) (cookieStep_names hm) q hq

theorem extractSetCookies_names {h : List (List Char × List Char)}
    {p : List Char × List Char} (hp : p ∈ extractSetCookies h) :
    cookieAllowList.contains p.1 = true := by
  unfold extractSetCookies at hp
  cases hl : headerLookup h "set-cookie".data with
  | none => rw [hl] at hp; simp at hp
  | some sc =>
    rw [hl] at hp
    exact foldl_cookieStep_names _ [] (by simp) p hp

theorem jarMerge_names {jar fresh : List (List Char × List Char)}
    (hj : ∀ q ∈ jar, cookieAllowList.contains q.1 = true)
    (hf : ∀ q ∈ fresh, cookieAllowList.contains q.1 = true) :
    ∀ q ∈ jarMerge jar fresh, cookieAllowList.contains q.1 = true := by
  unfold jarMerge
  induction fresh generalizing jar with
  | nil => exact hj
  | cons p rest ih =>
    intro q hq
    simp only [List.foldl_cons] at hq
    refine ih ?_ (fun q' hq' => hf q' (List.mem_cons_of_mem p hq')) q hq
    intro q' hq'
    rcases mem_mapSet hq' with rfl | hmem
    · exact hf p (List.mem_cons_self p rest)
    · exact hj q' hmem

/-- C9 counterexample: an attempt that succeeds (HTTP 200 with a parsed
article) whose response carries an allow-listed `datadome` cookie in
Set-Cookie does NOT add it to the jar — the success branch of
`tryFetchWithStrategy` drops the headers, so harvesting only happens on
blocked/failed responses, not "regardless of success". -/
theorem c9_counterexample :
    extractSetCookies c9Headers = [("datadome".data, "abc".data)] ∧
    (tryFetchAndParse .browser (.response 200 c9Headers (.ok "<html>".data))
      (fun _ => some c9Article) []).1.success = true ∧
    (tryFetchAndParse .browser (.response 200 c9Headers (.ok "<html>".data))
      (fun _ => some c9Article) []).2 = [] := by
  refine ⟨by decide, rfl, rfl⟩

/-- C9 (amended): cookies are harvested from every attempt whose
classified result carries response headers — i.e. blocked and failed
(non-2xx or tarpit) responses — by merging exactly the allow-listed
cookies of Set-Cookie into the jar; results without headers (successful
parses and transport timeouts) leave the jar unchanged; and no cookie
name outside the allow-list is ever stored in the jar. -/
theorem c9_cookie_harvesting :
    (∀ (strat : FetchStrategy) (o : ResponseOutcome)
        (parse : List Char → Option CachedArticle)
        (jar : List (List Char × List Char)) (f : StrategyFailure)
        (h : List (List Char × List Char)),
      tryFetchWithStrategy strat o = .failure f → f.headers = some h →
      (tryFetchAndParse strat o parse jar).2 = jarMerge jar (extractSetCookies h)) ∧
    (∀ (strat : FetchStrategy) (o : ResponseOutcome)
        (parse : List Char → Option CachedArticle)
        (jar : List (List Char × List Char)) (f : StrategyFailure),
      tryFetchWithStrategy strat o = .failure f → f.headers = none →
      (tryFetchAndParse strat o parse jar).2 = jar) ∧
    (∀ (strat : FetchStrategy) (o : ResponseOutcome)
        (parse : List Char → Option CachedArticle)
        (jar : List (List Char × List Char)) (html : List Char)
        (s : FetchStrategy),
      tryFetchWithStrategy strat o = .html html s →
      (tryFetchAndParse strat o parse jar).2 = jar) ∧
    (∀ (h : List (List Char × List Char)) (p : List Char × List Char),
      p ∈ extractSetCookies h → cookieAllowList.contains p.1 = true) ∧
    (∀ (strat : FetchStrategy) (o : ResponseOutcome)
        (parse : List Char → Option CachedArticle)
        (jar : List (List Char × List Char)),
      (∀ p ∈ jar, cookieAllowList.contains p.1 = true) →
      ∀ p ∈ (tryFetchAndParse strat o parse jar).2,
        cookieAllowList.contains p.1 = true) := by
  have hjar : ∀ (strat : FetchStrategy) (o : ResponseOutcome)
      (parse : List Char → Option CachedArticle)
      (jar : List (List Char × List Char)),
      (tryFetchAndParse strat o parse jar).2 =
        (match tryFetchWithStrategy strat o with
         | .failure f =>
           match f.headers with
           | some h => jarMerge jar (extractSetCookies h)
           | none => jar
         | .html _ _ => jar) := by
    intro strat o parse jar
    unfold tryFetchAndParse
    generalize tryFetchWithStrategy strat o = res
    cases res with
    | failure f =>
      obtain ⟨s, b, hs⟩ := f
      cases hs <;> rfl
    | html content s =>
      dsimp only
      generalize parse content = ph
      cases ph <;> rfl
  refine ⟨?_, ?_, ?_, fun h p hp => extractSetCookies_names hp, ?_⟩
  · intro strat o parse jar f h hres hh
    rw [hjar, hres]
    dsimp only
    rw [hh]
  · intro strat o parse jar f hres hh
    rw [hjar, hres]
    dsimp only
    rw [hh]
  · intro strat o parse jar html s hres
    rw [hjar, hres]
  · intro strat o parse jar hinv p hp
    rw [hjar] at hp
    cases hres : tryFetchWithStrategy strat o with
    | failure f =>
      rw [hres] at hp
      dsimp only at hp
      cases hh : f.headers with
      | some h =>
        rw [hh] at hp
        exact jarMerge_names hinv (fun q hq => extractSetCookies_names hq) p hp
      | none => rw [hh] at hp; exact hinv p hp
    | html html s =>
      rw [hres] at hp
      exact hinv p hp

/-- C9 witness: the harvesting equation applied to a concrete blocked
response carrying the DataDome cookie. -/
theorem c9_cookie_harvesting_witness :
    (tryFetchAndParse .browser (.response 403 c9Headers (.ok []))
      (fun _ => none) []).2 = jarMerge [] (extractSetCookies c9Headers) :=
  c9_cookie_harvesting.1 .browser (.response 403 c9Headers (.ok []))
    (fun _ => none) [] ⟨403, true, some c9Headers⟩ c9Headers rfl rfl

/-! ## Claim C8 -/

/-- C8 counterexample: the remote-extraction adapter builds a record with
`length` 2 (the raw text " x") but a sanitized `textContent` of length 1
(`sanitizeText` trims), so `length == len(textContent)` fails. -/
theorem c8_counterexample :
    fetchArticleWithDiffbotWrapper c8Diffbot = some c8Broken ∧
    c8Broken.length ≠ (c8Broken.textContent.length : Int) := by
  refine ⟨by decide, by decide⟩

/-- C8 (amended): every record the three constructors build stores the
sanitized text but the UNsanitized extracted text's length, so the
invariant that holds is `length == len(raw textContent)`; the claimed
`length == len(textContent)` holds exactly when `sanitizeText` preserved
the text's length. -/
theorem c8_length_invariant :
    (∀ (html url : List Char) (p : ParsedDoc) (a : CachedArticle),
      parseHtmlToArticle html url (some p) = some a →
      a.length = (p.textContent.length : Int) ∧
      a.textContent = sanitizeText p.textContent ∧
      (a.length = (a.textContent.length : Int) ↔
        (sanitizeText p.textContent).length = p.textContent.length)) ∧
    (∀ (html origUrl : List Char) (p : ParsedDoc) (a : CachedArticle),
      waybackArticle html origUrl (some p) = some a →
      a.length = (p.textContent.length : Int) ∧
      a.textContent = sanitizeText p.textContent ∧
      (a.length = (a.textContent.length : Int) ↔
        (sanitizeText p.textContent).length = p.textContent.length)) ∧
    (∀ (d : DiffbotArticle) (a : CachedArticle),
      fetchArticleWithDiffbotWrapper d = some a →
      a.length = (d.text.length : Int) ∧
      a.textContent = sanitizeText d.text ∧
      (a.length = (a.textContent.length : Int) ↔
        (sanitizeText d.text).length = d.text.length)) := by
  have validate_eq_some : ∀ {x a : CachedArticle},
      (if validCached x then some x else none) = some a → a = x := by
    intro x a h
    split at h
    · exact (Option.some.injEq .. ▸ h).symm
    · simp at h
  refine ⟨?_, ?_, ?_⟩
  · intro html url p a h
    unfold parseHtmlToArticle at h
    split at h
    · exact absurd h (by simp)
    · dsimp only at h
      split at h
      · exact absurd h (by simp)
      · obtain rfl := validate_eq_some h
        refine ⟨rfl, rfl, ?_⟩
        dsimp only
        constructor <;> intro hh <;> omega
  · intro html origUrl p a h
    unfold waybackArticle at h
    split at h
    · exact absurd h (by simp)
    · dsimp only at h
      split at h
      · exact absurd h (by simp)
      · obtain rfl := validate_eq_some h
        refine ⟨rfl, rfl, ?_⟩
        dsimp only
        constructor <;> intro hh <;> omega
  · intro d a h
    unfold fetchArticleWithDiffbotWrapper at h
    split at h
    · exact absurd h (by simp)
    · obtain rfl := (Option.some.injEq .. ▸ h).symm
      refine ⟨rfl, rfl, ?_⟩
      dsimp only
      constructor <;> intro hh <;> omega

/-- C8 witness: the diffbot branch of the amended invariant applied to
the concrete record built from `c8Diffbot`. -/
theorem c8_length_invariant_witness :
    c8Broken.length = (c8Diffbot.text.length : Int) ∧
    c8Broken.textContent = sanitizeText c8Diffbot.text :=
  let h := c8_length_invariant.2.2 c8Diffbot c8Broken (by decide)
  ⟨h.1, h.2.1⟩

/-! ## Claim C6 -/

theorem tryFetchAndParse_success_article (strat : FetchStrategy) (o : ResponseOutcome)
    (parse : List Char → Option CachedArticle) (jar : List (List Char × List Char)) :
    (tryFetchAndParse strat o parse jar).1.success = true →
    (tryFetchAndParse strat o parse jar).1.article.isSome = true := by
  unfold tryFetchAndParse
  generalize tryFetchWithStrategy strat o = res
  cases res with
  | failure f => dsimp only; intro h; simp at h
  | html content s =>
    dsimp only
    generalize parse content = ph
    cases ph <;> simp

theorem selectBest_eq_none {l : List FetchResult}
    (h : ∀ r ∈ l, ¬ (r.success = true ∧ r.article.isSome = true)) :
    selectBest l = none := by
  unfold selectBest
  have hf : l.filter (fun r => r.success && r.article.isSome) = [] := by
    rw [List.filter_eq_nil_iff]
    intro a ha
    simp only [Bool.and_eq_true]
    exact fun hc => h a ha ⟨hc.1, hc.2⟩
  rw [hf]
  rfl

theorem arbitrate_error {l : List FetchResult}
    (h : ∀ r ∈ l, ¬ (r.success = true ∧ r.article.isSome = true)) :
    arbitrate l = .error ("All fetch strategies failed: ".data ++ lastErrorOf l) := by
  unfold arbitrate
  rw [selectBest_eq_none h]

/-- C6 (amended): the early return happens iff attempt 1 succeeds with
quality strictly above 3000; attempt 2 is performed iff attempt 1 failed
or its quality is strictly below 3000 (at quality exactly 3000 neither
the early return nor attempt 2 happens); attempt 3 is performed iff there
was no early return and the jar after the prior attempts is non-empty;
and when no attempt yields a parsed article the run fails with the last
result's error. -/
theorem c6_fast_flow (env : FastEnv) :
    ((fastFirst env).1.success = true ∧ (fastFirst env).1.quality > 3000 →
      fetchArticleWithFast env =
        ⟨[1], [(fastFirst env).1], (fastFirst env).2,
         .ok ((fastFirst env).1.article.getD default)⟩) ∧
    ((2 : Nat) ∈ (fetchArticleWithFast env).attempts ↔
      (¬ (fastFirst env).1.success = true ∨ (fastFirst env).1.quality < 3000)) ∧
    ((3 : Nat) ∈ (fetchArticleWithFast env).attempts ↔
      (¬ ((fastFirst env).1.success = true ∧ (fastFirst env).1.quality > 3000) ∧
        fastJarPrior env ≠ [])) ∧
    ((∀ r ∈ (fetchArticleWithFast env).results,
        ¬ (r.success = true ∧ r.article.isSome = true)) →
      (fetchArticleWithFast env).outcome =
        .error ("All fetch strategies failed: ".data ++
          lastErrorOf (fetchArticleWithFast env).results)) := by
  refine ⟨?_, ?_, ?_, ?_⟩
  · intro ⟨hs, hq⟩
    unfold fetchArticleWithFast
    dsimp only
    rw [if_pos (by simp only [Bool.and_eq_true, decide_eq_true_eq]; exact ⟨hs, hq⟩)]
  · unfold fetchArticleWithFast
    dsimp only
    split_ifs with h1 h2 h3
    · simp only [Bool.and_eq_true, decide_eq_true_eq] at h1
      dsimp only
      simp [h1.1]
      omega
    · simp only [Bool.or_eq_true, decide_eq_true_eq] at h2
      dsimp only
      exact ⟨fun _ => h2, fun _ => by simp⟩
    · simp only [Bool.or_eq_true, decide_eq_true_eq] at h2
      dsimp only
      exact ⟨fun _ => h2, fun _ => by simp⟩
    · simp only [Bool.or_eq_true, decide_eq_true_eq] at h2
      dsimp only
      exact ⟨fun hm => absurd hm (by decide), fun hr => absurd hr h2⟩
    · simp only [Bool.or_eq_true, decide_eq_true_eq] at h2
      dsimp only
      exact ⟨fun hm => absurd hm (by decide), fun hr => absurd hr h2⟩
  · unfold fetchArticleWithFast fastJarPrior
    dsimp only
    by_cases hE : ((fastFirst env).1.success && decide ((fastFirst env).1.quality > 3000)) = true
    · simp only [if_pos hE]
      simp only [Bool.and_eq_true, decide_eq_true_eq] at hE
      simp [hE.1, hE.2]
    · simp only [if_neg hE]
      have hE' : ¬ ((fastFirst env).1.success = true ∧ (fastFirst env).1.quality > 3000) := by
        simpa [Bool.and_eq_true, decide_eq_true_eq] using hE
      by_cases hS : ((decide (¬ (fastFirst env).1.success = true)) || decide ((fastFirst env).1.quality < 3000)) = true
      · simp only [if_pos hS]
        by_cases hJ : (fastSecond env).2.length > 0
        · simp only [if_pos hJ]
          constructor
          · intro _
            exact ⟨hE', List.length_pos.mp hJ⟩
          · intro _
            simp
        · simp only [if_neg hJ]
          constructor
          · intro hm
            exact absurd hm (by decide)
          · intro ⟨_, hnil⟩
            exact absurd (List.length_pos.mpr hnil) hJ
      · simp only [if_neg hS]
        by_cases hJ : (fastFirst env).2.length > 0
        · simp only [if_pos hJ]
          constructor
          · intro _
            exact ⟨hE', List.length_pos.mp hJ⟩
          · intro _
            simp
        · simp only [if_neg hJ]
          constructor
          · intro hm
            exact absurd hm (by decide)
          · intro ⟨_, hnil⟩
            exact absurd (List.length_pos.mpr hnil) hJ
  · intro hall
    unfold fetchArticleWithFast at hall ⊢
    dsimp only at hall ⊢
    split_ifs at hall ⊢ with h1 h2 h3
    · simp only [Bool.and_eq_true, decide_eq_true_eq] at h1
      have hr := hall (fastFirst env).1 (by simp)
      exact absurd ⟨h1.1, tryFetchAndParse_success_article _ _ _ _ h1.1⟩ hr
    · exact arbitrate_error hall
    · exact arbitrate_error hall
    · exact arbitrate_error hall
    · exact arbitrate_error hall

/-- C6 counterexample: the first attempt succeeds with quality exactly
3000 — the early-return guard (quality > 3000) does not fire, yet attempt
2 is skipped as well because its own guard requires quality < 3000
strictly; the run performs attempt 1 only, contradicting the claim that
attempt 2 is performed whenever no early return happened. -/
theorem c6_counterexample :
    (fastFirst c6Env).1.success = true ∧
    (fastFirst c6Env).1.quality = 3000 ∧
    (fetchArticleWithFast c6Env).attempts = [1] := by
  have hfirst : (fastFirst c6Env).1 =
      ⟨true, .browser, some "<html>ok</html>".data, some c6Article,
       calculateQuality c6Article, none⟩ := rfl
  have hq : calculateQuality c6Article = 3000 := by
    unfold calculateQuality c6Article
    dsimp only [jsTruthy]
    rw [List.length_replicate]
    simp
  have hjar : (fastFirst c6Env).2 = [] := rfl
  refine ⟨by rw [hfirst], by rw [hfirst]; exact hq, ?_⟩
  unfold fetchArticleWithFast
  dsimp only
  have hc1 : ¬ (((fastFirst c6Env).1.success &&
      decide ((fastFirst c6Env).1.quality > 3000)) = true) := by
    simp [hfirst, hq]
  have hc2 : ¬ ((decide (¬ (fastFirst c6Env).1.success = true) ||
      decide ((fastFirst c6Env).1.quality < 3000)) = true) := by
    simp [hfirst, hq]
  simp only [if_neg hc1, if_neg hc2]
  have hc3 : ¬ ((fastFirst c6Env).2.length > 0) := by
    simp [hjar]
  simp only [if_neg hc3]

/-- C6 witness: the all-failed branch of the control-flow theorem applied
to the environment where every attempt aborts. -/
theorem c6_fast_flow_witness :
    (fetchArticleWithFast c6FailEnv).outcome =
      .error ("All fetch strategies failed: ".data ++
        lastErrorOf (fetchArticleWithFast c6FailEnv).results) :=
  (c6_fast_flow c6FailEnv).2.2.2 (by decide)

/-! ## Claim C4 -/

/-- C4: the two cache-key equivalences of the claim hold concretely, and
in general the canonical string produced by the strip-and-serialize step
depends only on the stripped aspects: app-injected query parameters
(source, view, sidebar) are removed while every other parameter is kept,
and two parsed URLs agreeing on everything except app parameters and a
non-root trailing slash serialize to the same canonical string. -/
theorem c4_cache_key_equivalence :
    extractArticleUrl "https://ex.com/a/" = extractArticleUrl "https://ex.com/a" ∧
    extractArticleUrl "https://ex.com/a/" = .ok "https://ex.com/a" ∧
    extractArticleUrl "https://ex.com/a?x=1&source=s" =
      extractArticleUrl "https://ex.com/a?x=1" ∧
    extractArticleUrl "https://ex.com/a?x=1&source=s" = .ok "https://ex.com/a?x=1" ∧
    (∀ u : URLRec,
      (stripTrailingSlash (deleteAppParams u)).params =
        u.params.filter (fun p => ¬ APP_QUERY_PARAMS.contains p.1) ∧
      ∀ p ∈ (stripTrailingSlash (deleteAppParams u)).params,
        ¬ APP_QUERY_PARAMS.contains p.1 = true) ∧
    (∀ u v : URLRec, u.scheme = v.scheme → u.userinfo = v.userinfo →
      u.host = v.host → u.port = v.port → u.fragment = v.fragment →
      stripSlash u.path = stripSlash v.path →
      u.params.filter (fun p => ¬ APP_QUERY_PARAMS.contains p.1) =
        v.params.filter (fun p => ¬ APP_QUERY_PARAMS.contains p.1) →
      serializeURL (stripTrailingSlash (deleteAppParams u)) =
        serializeURL (stripTrailingSlash (deleteAppParams v))) := by
  refine ⟨rfl, rfl, rfl, rfl, ?_, ?_⟩
  · intro u
    refine ⟨rfl, ?_⟩
    intro p hp
    have := List.of_mem_filter hp
    simpa using this
  · intro u v h1 h2 h3 h4 h5 h6 h7
    show serializeURL ⟨u.scheme, u.userinfo, u.host, u.port, stripSlash u.path,
        u.params.filter (fun p => ¬ APP_QUERY_PARAMS.contains p.1), u.fragment⟩ =
      serializeURL ⟨v.scheme, v.userinfo, v.host, v.port, stripSlash v.path,
        v.params.filter (fun p => ¬ APP_QUERY_PARAMS.contains p.1), v.fragment⟩
    rw [h1, h2, h3, h4, h5, h6, h7]

/-- C4 witness: the general invariant applied to two concrete parsed URLs
differing only in a trailing slash and a source parameter. -/
theorem c4_cache_key_equivalence_witness :
    serializeURL (stripTrailingSlash (deleteAppParams c4U)) =
      serializeURL (stripTrailingSlash (deleteAppParams c4V)) :=
  c4_cache_key_equivalence.2.2.2.2.2 c4U c4V rfl rfl rfl rfl rfl
    (by decide) (by decide)

/-! ## Claim C2 -/

theorem splitFirstSub_eq {cs pat a b : List Char}
    (h : splitFirstSub cs pat = some (a, b)) : cs = a ++ pat ++ b := by
  induction cs generalizing a with
  | nil => simp [splitFirstSub] at h
  | cons c rest ih =>
    unfold splitFirstSub at h
    split at h
    · next hp =>
      obtain ⟨t, ht⟩ := List.isPrefixOf_iff_prefix.mp hp
      obtain ⟨rfl, rfl⟩ : a = [] ∧ b = (c :: rest).drop pat.length := by
        simpa using h.symm
      conv_lhs => rw [← ht]
      rw [← ht]
      simp [List.drop_left]
    · next hp =>
      cases hrec : splitFirstSub rest pat with
      | none => rw [hrec] at h; simp at h
      | some ab =>
        obtain ⟨a', b'⟩ := ab
        rw [hrec] at h
        obtain ⟨rfl, rfl⟩ : a = c :: a' ∧ b = b' := by simpa using h.symm
        simp [ih hrec]

theorem dropWhile_eq_self_of_all {p : Char → Bool} {l : List Char}
    (h : ∀ c ∈ l, p c = false) : l.dropWhile p = l := by
  cases l with
  | nil => rfl
  | cons c t =>
    rw [List.dropWhile_cons, h c (by simp)]
    simp

theorem dropWhile_append_of_all {p : Char → Bool} {l1 l2 : List Char}
    (h : ∀ c ∈ l1, p c = true) : (l1 ++ l2).dropWhile p = l2.dropWhile p := by
  induction l1 with
  | nil => rfl
  | cons c t ih =>
    rw [List.cons_append, List.dropWhile_cons, h c (by simp)]
    exact ih (fun c hc => h c (by simp [hc]))

theorem jsTrim_eq_self_of_all {l : List Char} (h : ∀ c ∈ l, jsWS c = false) :
    jsTrim l = l := by
  unfold jsTrim
  rw [dropWhile_eq_self_of_all h,
    dropWhile_eq_self_of_all (fun c hc => h c (List.mem_reverse.mp hc)),
    List.reverse_reverse]

theorem lowerChar_alpha {c d : Char} (h : lowerChar c = d)
    (hd : d.isAlpha = true) : c.isAlpha = true := by
  unfold lowerChar at h
  split at h
  · next hc =>
    simp only [Bool.and_eq_true, decide_eq_true_eq] at hc
    simp only [Char.isAlpha, Char.isUpper, Bool.or_eq_true, Bool.and_eq_true,
      decide_eq_true_eq]
    left
    exact ⟨hc.1, hc.2⟩
  · exact h ▸ hd

theorem lowerStr_alpha {p q : List Char} (h : lowerStr p = q)
    (hq : ∀ c ∈ q, c.isAlpha = true) : ∀ c ∈ p, c.isAlpha = true := by
  induction p generalizing q with
  | nil => intro c hc; simp at hc
  | cons x t ih =>
    cases q with
    | nil => simp [lowerStr] at h
    | cons y s =>
      simp only [lowerStr, List.map_cons, List.cons.injEq] at h
      intro c hc
      rcases List.mem_cons.mp hc with rfl | hc
      · exact lowerChar_alpha h.1 (hq y (by simp))
      · exact ih (show lowerStr t = s from h.2)
          (fun d hd => hq d (List.mem_cons_of_mem _ hd)) c hc

theorem takeUntilChar_append (cs : List Char) (ch : Char) :
    ∃ t, cs = takeUntilChar cs ch ++ t := by
  refine ⟨cs.dropWhile (fun c => c ≠ ch), ?_⟩
  unfold takeUntilChar
  rw [List.takeWhile_append_dropWhile]

theorem isURLb_true_inv {o : List Char} (h : isURLb o = true) :
    o ≠ [] ∧
    (∀ c ∈ o, jsWS c = false) ∧
    ∃ proto rest, o = proto ++ ':' :: '/' :: '/' :: rest ∧
      (lowerStr proto = "http".data ∨ lowerStr proto = "https".data) := by
  unfold isURLb at h
  split at h
  · simp at h
  · split at h
    · simp at h
    · split at h
      · simp at h
      · split at h
        · simp at h
        · next hne hany hmail hlen =>
          refine ⟨by simpa [List.isEmpty_iff] using hne, ?_, ?_⟩
          · intro c hc
            by_contra hw
            have hwt : jsWS c = true := by
              revert hw
              cases jsWS c <;> simp
            exact hany (by
              simp only [List.any_eq_true]
              exact ⟨c, hc, by simp [hwt]⟩)
          · dsimp only at h
            cases hsplit : splitFirstSub
                (takeUntilChar (takeUntilChar o '#') '?') "://".data with
            | none => rw [hsplit] at h; simp at h
            | some pr =>
              obtain ⟨proto, rest2⟩ := pr
              rw [hsplit] at h
              simp only [Bool.and_eq_true, Bool.or_eq_true, decide_eq_true_eq] at h
              have hproto := h.1.1
              obtain ⟨t1, ht1⟩ := takeUntilChar_append o '#'
              obtain ⟨t2, ht2⟩ := takeUntilChar_append (takeUntilChar o '#') '?'
              have hu2 := splitFirstSub_eq hsplit
              refine ⟨proto, rest2 ++ t2 ++ t1, ?_, hproto⟩
              conv_lhs => rw [ht1]
              conv_lhs => rw [ht2]
              rw [hu2]
              simp

end FreeReader
namespace FreeReader

theorem schemeTail_dropWhile {ptail rest : List Char}
    (halpha : ∀ c ∈ ptail, c.isAlpha = true) :
    (ptail ++ ':' :: '/' :: '/' :: rest).dropWhile isSchemeChar =
      ':' :: '/' :: '/' :: rest := by
  rw [dropWhile_append_of_all (fun c hc => by
    unfold isSchemeChar
    simp [halpha c hc])]
  rw [List.dropWhile_cons]
  simp [show isSchemeChar ':' = false from by decide]

theorem protocolTest_of_decomp {proto rest : List Char}
    (halpha : ∀ c ∈ proto, c.isAlpha = true) (hne : proto ≠ []) :
    protocolTest (proto ++ ':' :: '/' :: '/' :: rest) = true := by
  cases proto with
  | nil => exact absurd rfl hne
  | cons c0 ptail =>
    unfold protocolTest
    rw [List.cons_append]
    dsimp only
    rw [schemeTail_dropWhile (fun c hc => halpha c (List.mem_cons_of_mem _ hc))]
    have hc0 : isSchemeStart c0 = true := by
      unfold isSchemeStart
      exact halpha c0 (by simp)
    simp [hc0]

theorem repairProtocol_of_decomp {proto rest : List Char}
    (halpha : ∀ c ∈ proto, c.isAlpha = true) (hne : proto ≠ []) :
    repairProtocol (proto ++ ':' :: '/' :: '/' :: rest) =
      proto ++ ':' :: '/' :: '/' :: rest := by
  cases proto with
  | nil => exact absurd rfl hne
  | cons c0 ptail =>
    unfold repairProtocol
    rw [List.cons_append]
    dsimp only
    have hc0 : isSchemeStart c0 = true := by
      unfold isSchemeStart
      exact halpha c0 (by simp)
    rw [if_pos hc0]
    rw [schemeTail_dropWhile (fun c hc => halpha c (List.mem_cons_of_mem _ hc))]
    rfl

theorem validateCandidate_ok_inv {c o : List Char}
    (h : validateCandidate c = .ok o) :
    o = c ∧ isURLb c = true ∧
    (match parseURL c with
     | some r => isPrivateIP r.host
     | none => false) = false := by
  unfold validateCandidate at h
  dsimp only at h
  split at h
  · simp at h
  · next hpriv =>
    split at h
    · next hurl =>
      have heq := Except.ok.inj h
      refine ⟨heq.symm, hurl, ?_⟩
      cases hb : (match parseURL c with
        | some r => isPrivateIP r.host
        | none => false) with
      | true => exact absurd hb hpriv
      | false => rfl
    · simp at h

theorem normalizeUrlL_ok_inv {inp o : List Char} (h : normalizeUrlL inp = .ok o) :
    isURLb o = true ∧
    (match parseURL o with
     | some r => isPrivateIP r.host
     | none => false) = false := by
  unfold normalizeUrlL at h
  dsimp only at h
  split at h
  · simp at h
  · obtain ⟨heq, hurl, hpriv⟩ := validateCandidate_ok_inv h
    rw [heq]
    exact ⟨hurl, hpriv⟩

theorem c2_idempotence (u o : String)
    (h : normalizeUrl u = .ok o) (hfix : safeDecodeUrl o.data = o.data) :
    normalizeUrl o = .ok o := by
  have hL : normalizeUrlL u.data = .ok o.data := by
    unfold normalizeUrl at h
    cases e : normalizeUrlL u.data with
    | error err =>
      rw [e] at h
      exact absurd h (by simp [Except.map])
    | ok l =>
      rw [e] at h
      have h2 : String.mk l = o := Except.ok.inj h
      rw [← h2]
  obtain ⟨hurl, hpriv⟩ := normalizeUrlL_ok_inv hL
  obtain ⟨hne, hws, proto, rest, hdecomp, hproto⟩ := isURLb_true_inv hurl
  have halpha : ∀ c ∈ proto, c.isAlpha = true := by
    rcases hproto with hp | hp
    · exact lowerStr_alpha hp (by decide)
    · exact lowerStr_alpha hp (by decide)
  have hpne : proto ≠ [] := by
    rcases hproto with hp | hp <;>
      (intro hnil; rw [hnil] at hp; simp [lowerStr] at hp)
  have htrim : jsTrim o.data = o.data := jsTrim_eq_self_of_all hws
  have hrepair : repairProtocol o.data = o.data := by
    rw [hdecomp]
    exact repairProtocol_of_decomp halpha hpne
  have hptest : protocolTest o.data = true := by
    rw [hdecomp]
    exact protocolTest_of_decomp halpha hpne
  unfold normalizeUrl normalizeUrlL
  dsimp only
  rw [htrim]
  rw [if_neg (by simpa [List.isEmpty_iff] using hne)]
  rw [hfix, hrepair]
  rw [if_pos hptest]
  unfold validateCandidate
  dsimp only
  rw [if_neg (by simp [hpriv])]
  rw [if_pos hurl]
  rfl

/-- C2 counterexample: a double-encoded input breaks idempotence — the
first pass decodes %25 to %, so its output still contains a %2F escape
that a second application decodes further, yielding a different string
(both applications succeed). -/
theorem c2_counterexample :
    normalizeUrl "https://example.com/a%252Fb" = .ok "https://example.com/a%2Fb" ∧
    normalizeUrl "https://example.com/a%2Fb" = .ok "https://example.com/a/b" ∧
    ("https://example.com/a%2Fb" : String) ≠ "https://example.com/a/b" := by
  refine ⟨rfl, rfl, by decide⟩

/-- C2 witness: idempotence applied to an output containing no
percent-escapes. -/
theorem c2_idempotence_witness :
    normalizeUrl "https://example.com" = .ok "https://example.com" ∧
    normalizeUrl ("https://example.com" : String) = .ok "https://example.com" :=
  ⟨rfl, c2_idempotence "https://example.com" "https://example.com" rfl rfl⟩

end FreeReader
